import Mathlib

/-!
# SmartOB expert advisor: a shallow embedding

The program is an MQL5 expert advisor.  Its `double` values are embedded as
rationals (exact arithmetic, no NaN and no rounding), its `datetime` and `int`
values as integers; the one `int` the program computes with, the counter
`tradeCountToday`, wraps around like a 32-bit integer (`wrapInt32`).  Everything the program asks of the terminal (bar series,
indicator values, symbol properties, the clock, the broker's answer to an order)
is a field of `Host`, one snapshot per event.  The two critical runtime errors
the program can raise (division by zero, array index out of range) stop the
program; they are the values of `Fault`.
-/

namespace SmartOB

/-! ## Data model -/

/-- Critical runtime errors: the terminal stops the program when one occurs. -/
inductive Fault
  | zeroDivide
  | arrayOutOfRange
  deriving DecidableEq, Repr

/-- Chart periods (the ones the inputs can name). -/
inductive ENUM_TIMEFRAMES
  | PERIOD_M1 | PERIOD_M5 | PERIOD_M15 | PERIOD_M30 | PERIOD_H1 | PERIOD_H4 | PERIOD_D1
  deriving DecidableEq, Repr

/-- Order directions used by the program. -/
inductive ENUM_ORDER_TYPE
  | ORDER_TYPE_BUY
  | ORDER_TYPE_SELL
  deriving DecidableEq, Repr

/-- Order block classification: `enum ENUM_OB_TYPE {BOB,BEAROB}` together with the
sentinel `WRONG_VALUE` that `DetectOB` returns when neither condition holds. -/
inductive ENUM_OB_TYPE
  | BOB
  | BEAROB
  | WRONG_VALUE
  deriving DecidableEq, Repr

/-- One price bar, with the fields the program reads (`open` is written `open_`). -/
structure MqlRates where
  open_ : ℚ
  high : ℚ
  low : ℚ
  close : ℚ
  volume : ℚ
  deriving DecidableEq, Repr

/-- The `input` parameters, with the defaults of the source. -/
structure Inputs where
  MagicNumber : Int := 2023
  MaxTradesPerDay : Int := 30
  UseDynamicRisk : Bool := true
  OB_Lookback : Int := 50
  OB_VolumeMult : ℚ := 3 / 2
  FibLevel1 : ℚ := 618 / 10
  FibLevel2 : ℚ := 50
  RSIPeriod : Int := 14
  EMAFast : Int := 50
  EMASlow : Int := 200
  RSIOverbought : ℚ := 70
  RSIOversold : ℚ := 30
  ATRPeriod : Int := 14
  ATRMult : ℚ := 2
  HighTF1 : ENUM_TIMEFRAMES := ENUM_TIMEFRAMES.PERIOD_H1
  HighTF2 : ENUM_TIMEFRAMES := ENUM_TIMEFRAMES.PERIOD_M30
  EntryTF : ENUM_TIMEFRAMES := ENUM_TIMEFRAMES.PERIOD_M5

/-- The terminal as the program sees it during one event.  Each field is one of
the library calls of the source, with the arguments the source fixes left out
(`iMA` is always called with shift 0, `MODE_EMA`, `PRICE_CLOSE`; `iRSI` with
`PRICE_CLOSE`; `iHighest` and `iLowest` with `MODE_HIGH` and `MODE_LOW`). -/
structure Host where
  /-- Host call `CopyRates(symbol, tf, start, count, rates)`: the array it fills. -/
  CopyRates : String → ENUM_TIMEFRAMES → Int → Int → List MqlRates
  /-- Host call `ArrayMaximum(rates)`: an index, or a negative number. -/
  ArrayMaximum : List MqlRates → Int
  /-- Host call `ArrayMinimum(rates)`: an index, or a negative number. -/
  ArrayMinimum : List MqlRates → Int
  SYMBOL_POINT : String → ℚ
  SYMBOL_ASK : String → ℚ
  SYMBOL_BID : String → ℚ
  SYMBOL_VOLUME_MAX : String → ℚ
  SYMBOL_TRADE_TICK_VALUE : String → ℚ
  /-- Host call `iMA(symbol, tf, period, 0, MODE_EMA, PRICE_CLOSE)`. -/
  iMA : String → ENUM_TIMEFRAMES → Int → ℚ
  /-- Host call `iRSI(symbol, tf, period, PRICE_CLOSE)`. -/
  iRSI : String → ENUM_TIMEFRAMES → Int → ℚ
  /-- Host call `iATR(symbol, tf, period)`. -/
  iATR : String → ENUM_TIMEFRAMES → Int → ℚ
  /-- Host call `iHighest(symbol, tf, MODE_HIGH, count, start)`. -/
  iHighest : String → ENUM_TIMEFRAMES → Int → Int → Int
  /-- Host call `iLowest(symbol, tf, MODE_LOW, count, start)`. -/
  iLowest : String → ENUM_TIMEFRAMES → Int → Int → Int
  iHigh : String → ENUM_TIMEFRAMES → Int → ℚ
  iLow : String → ENUM_TIMEFRAMES → Int → ℚ
  iClose : String → ENUM_TIMEFRAMES → Int → ℚ
  /-- Host call `AccountInfoDouble(ACCOUNT_EQUITY)`. -/
  ACCOUNT_EQUITY : ℚ
  /-- Host call `TimeCurrent()`, in seconds. -/
  TimeCurrent : Int
  /-- Host call `iTime(_Symbol, _Period, 0)`: opening time of the current chart bar. -/
  iTime : Int
  /-- Day of month of `TimeCurrent()` (`TimeToStruct`). -/
  day : Int
  /-- Host call `trade.PositionOpen(symbol, type, lot, price, sl, 0, "AutoTrade")`:
  whether the order is accepted. -/
  PositionOpen : String → ENUM_ORDER_TYPE → ℚ → ℚ → ℚ → Bool

/-- The global and `static` variables of the program. -/
structure Session where
  lastTradeTime : Int
  /-- The variable `int tradeCountToday`: a 32-bit integer, between -2147483648 and
  2147483647; arithmetic on it goes through `wrapInt32`. -/
  tradeCountToday : Int
  equity : ℚ
  /-- The variable `static datetime lastBar` of `IsNewBar`. -/
  lastBar : Int
  /-- The variable `static int lastDay` of `OnTimer`. -/
  lastDay : Int
  deriving DecidableEq, Repr

/-- Values of the globals when the program is loaded. -/
def Session.init : Session :=
  { lastTradeTime := 0, tradeCountToday := 0, equity := 0, lastBar := 0, lastDay := -1 }

/-- The arguments of one call of `trade.PositionOpen`. -/
structure TradeRequest where
  symbol : String
  type : ENUM_ORDER_TYPE
  volume : ℚ
  price : ℚ
  sl : ℚ
  deriving DecidableEq, Repr

/-- One line of the trade log as `LogTrade` writes it: each numeric field is the
number that the written text denotes. -/
structure LogRecord where
  /-- The text `TimeToString(TimeCurrent())`: date and time to the minute. -/
  time : Int
  symbol : String
  /-- The text `"BUY"` or `"SELL"`. -/
  direction : String
  /-- The text `"BullishOB"` or `"BearishOB"`. -/
  obName : String
  /-- The text `DoubleToString(lot,2)`. -/
  lot : ℚ
  /-- The text `DoubleToString(sl,5)`. -/
  sl : ℚ
  /-- The text `DoubleToString(equity,2)`. -/
  equity : ℚ
  deriving DecidableEq, Repr

/-- What an event handler has done so far: the globals, the orders handed to
`trade.PositionOpen` (oldest first), the records written by `LogTrade`, and
the critical error that stopped the program, if any. -/
structure Outcome where
  session : Session
  orders : List TradeRequest
  logs : List LogRecord
  fault : Option Fault
  deriving DecidableEq, Repr

deriving instance DecidableEq for Except

/-- The `symbols` array. -/
def symbols : List String := ["XAUUSD", "EURUSD"]

/-! ## Arithmetic and array access of the host language -/

/-- Division `a / b` of two doubles.  MQL5 stops the program with the critical
error "zero divide" when the divisor is zero, for doubles as for integers (the
specification calls it `DivisionByZeroError`). -/
def fdiv (a b : ℚ) : Except Fault ℚ :=
  if b = 0 then Except.error Fault.zeroDivide else Except.ok (a / b)

/-- Embeds `MathRound`: nearest integer, halves away from zero. -/
def MathRound (x : ℚ) : ℤ :=
  if 0 ≤ x then ⌊x + 1 / 2⌋ else -⌊-x + 1 / 2⌋

/-- Embeds `NormalizeDouble(x, digits)`: `x` rounded to `digits` decimals. -/
def NormalizeDouble (x : ℚ) (digits : ℕ) : ℚ :=
  (MathRound (x * 10 ^ digits) : ℚ) / 10 ^ digits

/-- The value of a 32-bit `int` expression whose exact result is `n`: the result
wraps around at 2147483647 and -2147483648. -/
def wrapInt32 (n : Int) : Int :=
  (n + 2147483648) % 4294967296 - 2147483648

/-- The number denoted by the text `DoubleToString(x, digits)`: `x` rounded to
`digits` decimals. -/
def DoubleToString (x : ℚ) (digits : ℕ) : ℚ :=
  NormalizeDouble x digits

/-- The time denoted by the text `TimeToString(t)` in its default format, which
shows date, hours and minutes: `t` without its seconds. -/
def TimeToString (t : Int) : Int :=
  t - t % 60

/-- Embeds `MathMin`. -/
def MathMin (a b : ℚ) : ℚ := if a < b then a else b

/-- Embeds `MathAbs`. -/
def MathAbs (x : ℚ) : ℚ := if x < 0 then -x else x

/-- Array read `rates[i]`.  MQL5 stops the program with the critical error "array
out of range" when the index is outside the array. -/
def index (rates : List MqlRates) (i : Int) : Except Fault MqlRates :=
  if i < 0 then Except.error Fault.arrayOutOfRange
  else match rates.get? i.toNat with
    | some r => Except.ok r
    | none => Except.error Fault.arrayOutOfRange

/-! ## The program -/

/-- Embeds `CalculateFib(rates, level)`. -/
def CalculateFib (h : Host) (rates : List MqlRates) (level : ℚ) : Except Fault ℚ :=
  match index rates (h.ArrayMaximum rates) with
  | Except.error f => Except.error f
  | Except.ok rmax =>
    let high := rmax.high
    match index rates (h.ArrayMinimum rates) with
    | Except.error f => Except.error f
    | Except.ok rmin =>
      let low := rmin.low
      Except.ok (high - ((high - low) * (level / 100)))

/-- The expression `rates[0].close>rates[0].open && rates[0].volume>rates[1].volume*OB_VolumeMult
&& MathAbs(rates[0].open-fibLevel)<priceGap` of `DetectOB`; `&&` evaluates its right
operand only when the left one is true. -/
def bobCondition (rates : List MqlRates) (volumeMult fibLevel priceGap : ℚ) :
    Except Fault Bool :=
  match index rates 0 with
  | Except.error f => Except.error f
  | Except.ok r0 =>
    if r0.close > r0.open_ then
      match index rates 1 with
      | Except.error f => Except.error f
      | Except.ok r1 =>
        if r0.volume > r1.volume * volumeMult then
          Except.ok (decide (MathAbs (r0.open_ - fibLevel) < priceGap))
        else Except.ok false
    else Except.ok false

/-- The expression `rates[0].close<rates[0].open && rates[0].volume>rates[1].volume*OB_VolumeMult
&& MathAbs(rates[0].open-fibLevel)<priceGap` of `DetectOB`. -/
def bearobCondition (rates : List MqlRates) (volumeMult fibLevel priceGap : ℚ) :
    Except Fault Bool :=
  match index rates 0 with
  | Except.error f => Except.error f
  | Except.ok r0 =>
    if r0.close < r0.open_ then
      match index rates 1 with
      | Except.error f => Except.error f
      | Except.ok r1 =>
        if r0.volume > r1.volume * volumeMult then
          Except.ok (decide (MathAbs (r0.open_ - fibLevel) < priceGap))
        else Except.ok false
    else Except.ok false

/-- The body of `DetectOB` after `CopyRates`, as a function of the array
`rates` and of `priceGap`. -/
def DetectOB.classify (h : Host) (cfg : Inputs) (rates : List MqlRates) (priceGap : ℚ) :
    Except Fault ENUM_OB_TYPE :=
  match CalculateFib h rates cfg.FibLevel1 with
  | Except.error f => Except.error f
  | Except.ok fibLevel =>
    match bobCondition rates cfg.OB_VolumeMult fibLevel priceGap with
    | Except.error f => Except.error f
    | Except.ok bob =>
      match bearobCondition rates cfg.OB_VolumeMult fibLevel priceGap with
      | Except.error f => Except.error f
      | Except.ok bearob =>
        if bob then Except.ok ENUM_OB_TYPE.BOB
        else if bearob then Except.ok ENUM_OB_TYPE.BEAROB
        else Except.ok ENUM_OB_TYPE.WRONG_VALUE

/-- Embeds `DetectOB(symbol)`. -/
def DetectOB (h : Host) (cfg : Inputs) (symbol : String) : Except Fault ENUM_OB_TYPE :=
  DetectOB.classify h cfg (h.CopyRates symbol cfg.HighTF1 0 cfg.OB_Lookback)
    (h.SYMBOL_POINT symbol * 50)

/-- Embeds `GetTrend(symbol, tf)`. -/
def GetTrend (h : Host) (cfg : Inputs) (symbol : String) (tf : ENUM_TIMEFRAMES) : Bool :=
  let emaFast := h.iMA symbol tf cfg.EMAFast
  let emaSlow := h.iMA symbol tf cfg.EMASlow
  decide (emaFast > emaSlow)

/-- Embeds `CheckFVG(symbol, isLong)`. -/
def CheckFVG (h : Host) (cfg : Inputs) (symbol : String) (isLong : Bool) : Except Fault Bool :=
  let rates := h.CopyRates symbol cfg.EntryTF 0 3
  match index rates 1 with
  | Except.error f => Except.error f
  | Except.ok r1 =>
    match index rates 0 with
    | Except.error f => Except.error f
    | Except.ok r0 =>
      if isLong then
        if r1.low > r0.high then
          match index rates 2 with
          | Except.error f => Except.error f
          | Except.ok r2 => Except.ok (decide (r1.low > r2.high))
        else Except.ok false
      else
        if r1.high < r0.low then
          match index rates 2 with
          | Except.error f => Except.error f
          | Except.ok r2 => Except.ok (decide (r1.high < r2.low))
        else Except.ok false

/-- Embeds `CheckMSS(symbol, isLong)`. -/
def CheckMSS (h : Host) (cfg : Inputs) (symbol : String) (isLong : Bool) : Bool :=
  let hi := h.iHigh symbol cfg.HighTF1 (h.iHighest symbol cfg.HighTF1 50 0)
  let lo := h.iLow symbol cfg.HighTF1 (h.iLowest symbol cfg.HighTF1 50 0)
  if isLong then decide (h.iClose symbol cfg.EntryTF 0 > hi)
  else decide (h.iClose symbol cfg.EntryTF 0 < lo)

/-- Embeds `CheckEntry(symbol, isLong)`. -/
def CheckEntry (h : Host) (cfg : Inputs) (symbol : String) (isLong : Bool) : Except Fault Bool :=
  let rsi := h.iRSI symbol cfg.EntryTF cfg.RSIPeriod
  match CheckFVG h cfg symbol isLong with
  | Except.error f => Except.error f
  | Except.ok fvg =>
    let mss := if isLong then CheckMSS h cfg symbol true else CheckMSS h cfg symbol false
    Except.ok (if isLong then (decide (rsi < cfg.RSIOversold) && fvg && mss)
      else (decide (rsi > cfg.RSIOverbought) && fvg && mss))

/-- Embeds `CalculateRisk()`, with the global `equity` as an argument. -/
def CalculateRisk (cfg : Inputs) (equity : ℚ) : ℚ :=
  if !cfg.UseDynamicRisk then 2
  else if equity ≤ 10 then 20
  else if equity ≤ 200 then 2
  else 1

/-- Embeds `OptimalLot(symbol, risk, entry, sl)`, with the global `equity` as an argument. -/
def OptimalLot (h : Host) (equity : ℚ) (symbol : String) (risk entry sl : ℚ) : Except Fault ℚ :=
  let riskAmount := equity * (risk / 100)
  let tickValue := h.SYMBOL_TRADE_TICK_VALUE symbol
  match fdiv (MathAbs (entry - sl)) (h.SYMBOL_POINT symbol) with
  | Except.error f => Except.error f
  | Except.ok points =>
    match fdiv riskAmount (points * tickValue) with
    | Except.error f => Except.error f
    | Except.ok q => Except.ok (NormalizeDouble q 2)

/-- Embeds `LogTrade(symbol, type, obType, lot, sl)`: the record it writes. -/
def LogTrade (h : Host) (s : Session) (symbol : String) (type : ENUM_ORDER_TYPE)
    (obType : ENUM_OB_TYPE) (lot sl : ℚ) : LogRecord :=
  let obName := if obType = ENUM_OB_TYPE.BOB then "BullishOB" else "BearishOB"
  let direction := if type = ENUM_ORDER_TYPE.ORDER_TYPE_BUY then "BUY" else "SELL"
  { time := TimeToString h.TimeCurrent, symbol := symbol, direction := direction,
    obName := obName, lot := DoubleToString lot 2, sl := DoubleToString sl 5,
    equity := DoubleToString s.equity 2 }

/-- The local `price` of `ExecuteTrade`: ask for a buy, bid for a sell. -/
def ExecuteTrade.price (h : Host) (symbol : String) (type : ENUM_ORDER_TYPE) : ℚ :=
  if type = ENUM_ORDER_TYPE.ORDER_TYPE_BUY then h.SYMBOL_ASK symbol else h.SYMBOL_BID symbol

/-- The local `atr` of `ExecuteTrade`: `iATR(symbol,EntryTF,ATRPeriod)*ATRMult`. -/
def ExecuteTrade.atr (h : Host) (cfg : Inputs) (symbol : String) : ℚ :=
  h.iATR symbol cfg.EntryTF cfg.ATRPeriod * cfg.ATRMult

/-- The local `sl` of `ExecuteTrade`: `price-atr` for a buy, `price+atr` for a sell,
in exact arithmetic.  The source computes it in doubles, where a small `atr` can
leave `sl` equal to `price`; statements about the stop distance therefore speak
of this computed `sl`, not of `atr`. -/
def ExecuteTrade.sl (h : Host) (cfg : Inputs) (symbol : String) (type : ENUM_ORDER_TYPE) : ℚ :=
  if type = ENUM_ORDER_TYPE.ORDER_TYPE_BUY then
    ExecuteTrade.price h symbol type - ExecuteTrade.atr h cfg symbol
  else ExecuteTrade.price h symbol type + ExecuteTrade.atr h cfg symbol

/-- The local `lot` of `ExecuteTrade`:
`MathMin(OptimalLot(symbol,risk,price,sl),SymbolInfoDouble(symbol,SYMBOL_VOLUME_MAX))`
with `risk = CalculateRisk()`. -/
def ExecuteTrade.lot (h : Host) (cfg : Inputs) (equity : ℚ) (symbol : String)
    (type : ENUM_ORDER_TYPE) : Except Fault ℚ :=
  let risk := CalculateRisk cfg equity
  match OptimalLot h equity symbol risk (ExecuteTrade.price h symbol type)
      (ExecuteTrade.sl h cfg symbol type) with
  | Except.error f => Except.error f
  | Except.ok optimal => Except.ok (MathMin optimal (h.SYMBOL_VOLUME_MAX symbol))

/-- The arguments with which `ExecuteTrade` calls `trade.PositionOpen` once the
lot is `lot`. -/
def ExecuteTrade.request (h : Host) (cfg : Inputs) (symbol : String) (type : ENUM_ORDER_TYPE)
    (lot : ℚ) : TradeRequest :=
  { symbol := symbol, type := type, volume := lot,
    price := ExecuteTrade.price h symbol type, sl := ExecuteTrade.sl h cfg symbol type }

/-- Embeds `ExecuteTrade(symbol, type, obType)`, continuing from the outcome `o`. -/
def ExecuteTrade (h : Host) (cfg : Inputs) (symbol : String) (type : ENUM_ORDER_TYPE)
    (obType : ENUM_OB_TYPE) (o : Outcome) : Outcome :=
  let price := ExecuteTrade.price h symbol type
  let sl := ExecuteTrade.sl h cfg symbol type
  match ExecuteTrade.lot h cfg o.session.equity symbol type with
  | Except.error f => { o with fault := some f }
  | Except.ok lot =>
    let sent := o.orders ++ [{ symbol := symbol, type := type, volume := lot,
                               price := price, sl := sl }]
    if h.PositionOpen symbol type lot price sl then
      { o with
        session := { o.session with
          tradeCountToday := wrapInt32 (o.session.tradeCountToday + 1),
          lastTradeTime := h.TimeCurrent },
        orders := sent,
        logs := o.logs ++ [LogTrade h o.session symbol type obType lot sl] }
    else { o with orders := sent }

/-- Embeds `IsNewBar()`: the answer and the updated globals. -/
def IsNewBar (h : Host) (s : Session) : Bool × Session :=
  let currentBar := h.iTime
  if s.lastBar ≠ currentBar then (true, { s with lastBar := currentBar })
  else (false, s)

/-- The branch that `if(trendUp && obType==BOB && CheckEntry(symbol,true)) ... else
if(!trendUp && obType==BEAROB && CheckEntry(symbol,false)) ...` of `OnTick` takes for
`symbol`: the order type and order block handed to `ExecuteTrade`, or `none` when
neither condition holds.  `&&` evaluates its right operand only when the left one
is true. -/
def OnTick.path (h : Host) (cfg : Inputs) (symbol : String) :
    Except Fault (Option (ENUM_ORDER_TYPE × ENUM_OB_TYPE)) :=
  match DetectOB h cfg symbol with
  | Except.error f => Except.error f
  | Except.ok obType =>
    let trendUp := GetTrend h cfg symbol cfg.HighTF1 && GetTrend h cfg symbol cfg.HighTF2
    match (if trendUp && obType == ENUM_OB_TYPE.BOB then CheckEntry h cfg symbol true
           else Except.ok false) with
    | Except.error f => Except.error f
    | Except.ok true => Except.ok (some (ENUM_ORDER_TYPE.ORDER_TYPE_BUY, obType))
    | Except.ok false =>
      match (if !trendUp && obType == ENUM_OB_TYPE.BEAROB then CheckEntry h cfg symbol false
             else Except.ok false) with
      | Except.error f => Except.error f
      | Except.ok true => Except.ok (some (ENUM_ORDER_TYPE.ORDER_TYPE_SELL, obType))
      | Except.ok false => Except.ok none

/-- One iteration of the `for` loop of `OnTick`, for `symbol`. -/
def OnTick.body (h : Host) (cfg : Inputs) (symbol : String) (o : Outcome) : Outcome :=
  match OnTick.path h cfg symbol with
  | Except.error f => { o with fault := some f }
  | Except.ok none => o
  | Except.ok (some (type, obType)) => ExecuteTrade h cfg symbol type obType o

/-- The `for` loop of `OnTick` over the remaining symbols; a critical error
ends it. -/
def OnTick.loop (h : Host) (cfg : Inputs) : List String → Outcome → Outcome
  | [], o => o
  | symbol :: rest, o =>
    match (OnTick.body h cfg symbol o).fault with
    | some _ => OnTick.body h cfg symbol o
    | none => OnTick.loop h cfg rest (OnTick.body h cfg symbol o)

/-- The state in which `OnTick` enters its `for` loop: `IsNewBar` has run,
`equity` has been read, nothing has been submitted. -/
def OnTick.start (h : Host) (s : Session) : Outcome :=
  { session := { (IsNewBar h s).2 with equity := h.ACCOUNT_EQUITY }, orders := [], logs := [],
    fault := none }

/-- Embeds `OnTick()`, from the globals `s`. -/
def OnTick (h : Host) (cfg : Inputs) (s : Session) : Outcome :=
  let nb := IsNewBar h s
  if !nb.1 || decide (h.TimeCurrent - nb.2.lastTradeTime < 2880) then
    { session := nb.2, orders := [], logs := [], fault := none }
  else
    OnTick.loop h cfg symbols (OnTick.start h s)

/-- Embeds `OnTimer()`: the updated globals. -/
def OnTimer (h : Host) (s : Session) : Session :=
  if h.day ≠ s.lastDay then { s with tradeCountToday := 0, lastDay := h.day } else s

/-! ## Runs of the program -/

/-- The events the terminal delivers to the program. -/
inductive Event
  | tick (h : Host)
  | timer (h : Host)

/-- The terminal at the time of the event. -/
def Event.host : Event → Host
  | Event.tick h => h
  | Event.timer h => h

/-- The handler of an event, from the globals `s`. -/
def handle (cfg : Inputs) (e : Event) (s : Session) : Outcome :=
  match e with
  | Event.tick h => OnTick h cfg s
  | Event.timer h => { session := OnTimer h s, orders := [], logs := [], fault := none }

/-- One call of `trade.PositionOpen` in a run: when it was made, with which
arguments, and the broker's answer. -/
structure Intent where
  time : Int
  request : TradeRequest
  accepted : Bool
  deriving DecidableEq, Repr

/-- The broker's answer to the request `r`. -/
def Host.accepts (h : Host) (r : TradeRequest) : Bool :=
  h.PositionOpen r.symbol r.type r.volume r.price r.sl

/-- The calls of `trade.PositionOpen` made while handling the event `e` with
outcome `o`. -/
def intents (e : Event) (o : Outcome) : List Intent :=
  o.orders.map fun r =>
    { time := e.host.TimeCurrent, request := r, accepted := e.host.accepts r }

/-- All calls of `trade.PositionOpen` of a run, oldest first.  The events are
handled one after the other; a critical error ends the run. -/
def trace (cfg : Inputs) : List Event → Session → List Intent
  | [], _ => []
  | e :: es, s =>
    intents e (handle cfg e s) ++
      (match (handle cfg e s).fault with
       | some _ => []
       | none => trace cfg es (handle cfg e s).session)

/-- The globals after a run: the events are handled one after the other; a
critical error ends the run. -/
def finalSession (cfg : Inputs) : List Event → Session → Session
  | [], s => s
  | e :: es, s =>
    match (handle cfg e s).fault with
    | some _ => (handle cfg e s).session
    | none => finalSession cfg es (handle cfg e s).session

/-! ## Concrete terminals used to run the program -/

/-- The newest and the previous bar of the trend-timeframe window of `demoHost`. -/
def demoWindow : List MqlRates :=
  [ { open_ := 110 / 100, high := 113 / 100, low := 108 / 100, close := 112 / 100,
      volume := 200 },
    { open_ := 109 / 100, high := 110 / 100, low := 1085 / 1000, close := 1095 / 1000,
      volume := 100 } ]

/-- Three entry-timeframe bars with a long gap (`rates[1].low` above both neighbours). -/
def demoGap : List MqlRates :=
  [ { open_ := 1, high := 11 / 10, low := 1, close := 1, volume := 10 },
    { open_ := 12 / 10, high := 13 / 10, low := 12 / 10, close := 12 / 10, volume := 10 },
    { open_ := 1, high := 11 / 10, low := 1, close := 1, volume := 10 } ]

/-- A terminal on which every symbol qualifies for a buy: fast average above the
slow one on every timeframe, a bullish order block, oscillator 25, a long gap,
a close above the highest high, and a broker that accepts every order. -/
def demoHost : Host :=
  { CopyRates := fun _ tf _ _ =>
      if tf = ENUM_TIMEFRAMES.PERIOD_H1 then demoWindow else demoGap,
    ArrayMaximum := fun _ => 0,
    ArrayMinimum := fun _ => 0,
    SYMBOL_POINT := fun _ => 1 / 10000,
    SYMBOL_ASK := fun _ => 12 / 10,
    SYMBOL_BID := fun _ => 11999 / 10000,
    SYMBOL_VOLUME_MAX := fun _ => 100,
    SYMBOL_TRADE_TICK_VALUE := fun _ => 1,
    iMA := fun _ _ period => if period = 50 then 11 / 10 else 1,
    iRSI := fun _ _ _ => 25,
    iATR := fun _ _ _ => 1 / 1000,
    iHighest := fun _ _ _ _ => 7,
    iLowest := fun _ _ _ _ => 9,
    iHigh := fun _ _ _ => 115 / 100,
    iLow := fun _ _ _ => 105 / 100,
    iClose := fun _ _ _ => 12 / 10,
    ACCOUNT_EQUITY := 1000,
    TimeCurrent := 100000,
    iTime := 99900,
    day := 1,
    PositionOpen := fun _ _ _ _ _ => true }

/-- The state of a decision cycle before its first symbol, with an equity of 1000. -/
def demoStart : Outcome :=
  { session := { Session.init with equity := 1000 }, orders := [], logs := [], fault := none }

/-- The terminal `demoHost` with an account whose equity has fallen to -100. -/
def debtHost : Host := { demoHost with ACCOUNT_EQUITY := -100 }

/-- The terminal `demoHost` with a maximum volume of a tenth of a lot. -/
def smallMaxHost : Host := { demoHost with SYMBOL_VOLUME_MAX := fun _ => 1 / 10 }

/-- The terminal `demoHost` with a tick value of zero for every symbol. -/
def zeroTickHost : Host := { demoHost with SYMBOL_TRADE_TICK_VALUE := fun _ => 0 }

/-- The newest and the previous bar of the trend-timeframe window of `mixedHost`:
a falling bar with twice the volume of the previous one. -/
def bearWindow : List MqlRates :=
  [ { open_ := 110 / 100, high := 113 / 100, low := 108 / 100, close := 109 / 100,
      volume := 200 },
    { open_ := 109 / 100, high := 110 / 100, low := 1085 / 1000, close := 1095 / 1000,
      volume := 100 } ]

/-- Three entry-timeframe bars with a short gap (`rates[1].high` below both neighbours). -/
def bearGap : List MqlRates :=
  [ { open_ := 12 / 10, high := 13 / 10, low := 12 / 10, close := 12 / 10, volume := 10 },
    { open_ := 1, high := 11 / 10, low := 1, close := 1, volume := 10 },
    { open_ := 12 / 10, high := 13 / 10, low := 12 / 10, close := 12 / 10, volume := 10 } ]

/-- A terminal whose two trend timeframes disagree (fast average above the slow
one on H1, below it on every other timeframe), with a bearish order block,
oscillator 75, a short gap and a close below the lowest low. -/
def mixedHost : Host :=
  { demoHost with
    CopyRates := fun _ tf _ _ =>
      if tf = ENUM_TIMEFRAMES.PERIOD_H1 then bearWindow else bearGap,
    iMA := fun _ tf period =>
      if tf = ENUM_TIMEFRAMES.PERIOD_H1 then (if period = 50 then 11 / 10 else 1)
      else (if period = 50 then 1 else 11 / 10),
    iRSI := fun _ _ _ => 75,
    iClose := fun _ _ _ => 1 }

/-- The terminal `demoHost` with a broker that rejects every order. -/
def rejectHost : Host := { demoHost with PositionOpen := fun _ _ _ _ _ => false }

/-- The terminal `rejectHost` five minutes later, on the next chart bar. -/
def rejectHostLater : Host := { rejectHost with TimeCurrent := 100300, iTime := 100200 }

/-- The terminal `demoHost` five minutes later, on the next chart bar. -/
def demoHostLater : Host := { demoHost with TimeCurrent := 100300, iTime := 100200 }

/-- The terminal `demoHost` at the `k`-th decision cycle of a day, 2880 seconds
after the previous one and on a new chart bar. -/
def demoHostAt (k : ℕ) : Host :=
  { demoHost with TimeCurrent := 100000 + 2880 * (k : Int), iTime := 99900 + 2880 * (k : Int) }

/-- The first bar of `demoWindow`: it has the highest high and the lowest low of
the window. -/
def demoNewest : MqlRates :=
  { open_ := 110 / 100, high := 113 / 100, low := 108 / 100, close := 112 / 100,
    volume := 200 }

/-- A trend-timeframe window of one bar that closes where it opened. -/
def dojiWindow : List MqlRates :=
  [ { open_ := 110 / 100, high := 113 / 100, low := 108 / 100, close := 110 / 100,
      volume := 200 } ]

/-- The terminal `demoHost` with the one-bar window `dojiWindow` on the trend
timeframe. -/
def dojiHost : Host :=
  { demoHost with
    CopyRates := fun _ tf _ _ =>
      if tf = ENUM_TIMEFRAMES.PERIOD_H1 then dojiWindow else demoGap }

/-- The terminal `demoHost` with no bar at all on the trend timeframe. -/
def emptyHost : Host :=
  { demoHost with
    CopyRates := fun _ tf _ _ =>
      if tf = ENUM_TIMEFRAMES.PERIOD_H1 then [] else demoGap,
    ArrayMaximum := fun _ => -1,
    ArrayMinimum := fun _ => -1 }

/-- A terminal whose current trend-timeframe bar has a high of 2, above the high
of 1 of every earlier bar, while the entry timeframe closes at 1.5. -/
def spikeHost : Host :=
  { demoHost with
    iHigh := fun _ _ i => if i = 0 then 2 else 1,
    iHighest := fun _ _ _ _ => 0,
    iClose := fun _ _ _ => 3 / 2 }

/-! ## The specification's formulas -/

/-- The highest high of a window, `max(bar.high for bar in window)` (0 on the
empty window, where the maximum does not exist). -/
def windowHigh : List MqlRates → ℚ
  | [] => 0
  | [b] => b.high
  | b :: c :: rest => max b.high (windowHigh (c :: rest))

/-- The lowest low of a window, `min(bar.low for bar in window)` (0 on the empty
window, where the minimum does not exist). -/
def windowLow : List MqlRates → ℚ
  | [] => 0
  | [b] => b.low
  | b :: c :: rest => min b.low (windowLow (c :: rest))

/-- The retracement level in the words of the specification:
`high - (high - low) * levelPercent / 100` with the highest high and the lowest
low of the window. -/
def retracementLevel (window : List MqlRates) (levelPercent : ℚ) : ℚ :=
  windowHigh window - (windowHigh window - windowLow window) * levelPercent / 100

/-- Modelled from the spec: the library calls `ArrayMaximum` and `ArrayMinimum`
on an array of bars are not part of the source.  The specification reads
`rates[ArrayMaximum(rates)].high` as the highest high and
`rates[ArrayMinimum(rates)].low` as the lowest low of the window: on `rates` the
first call returns the position of a bar whose high no bar exceeds, the second
the position of a bar whose low no bar undercuts. -/
def Host.selectsExtremes (h : Host) (rates : List MqlRates) : Prop :=
  (∃ r, index rates (h.ArrayMaximum rates) = Except.ok r ∧ ∀ b ∈ rates, b.high ≤ r.high) ∧
  (∃ r, index rates (h.ArrayMinimum rates) = Except.ok r ∧ ∀ b ∈ rates, r.low ≤ b.low)

/-- Modelled from the spec: a computable `ArrayMaximum` in the reading of the
specification, the position of the first bar with the highest high (-1 on the
empty array). -/
def argMaxHigh (rates : List MqlRates) : Int :=
  if rates = [] then -1
  else (rates.findIdx (fun b => decide (b.high = windowHigh rates)) : ℕ)

/-- Modelled from the spec: a computable `ArrayMinimum` in the reading of the
specification, the position of the first bar with the lowest low (-1 on the empty
array). -/
def argMinLow (rates : List MqlRates) : Int :=
  if rates = [] then -1
  else (rates.findIdx (fun b => decide (b.low = windowLow rates)) : ℕ)

/-- The terminal `demoHost` with `argMaxHigh` and `argMinLow` as `ArrayMaximum` and
`ArrayMinimum`. -/
def specHost : Host :=
  { demoHost with ArrayMaximum := argMaxHigh, ArrayMinimum := argMinLow }

/-- Modelled from the spec: the library calls `iHighest`, `iLowest`, `iHigh` and
`iLow` are not part of the source.  `iHighest(symbol, tf, MODE_HIGH, count, start)`
returns the shift of a bar with the highest high among the `count` bars from shift
`start` on (shift 0 is the current bar), and `iLowest` the shift of a bar with the
lowest low among them. -/
def Host.findsExtremes (h : Host) (symbol : String) (tf : ENUM_TIMEFRAMES)
    (count start : Int) : Prop :=
  (start ≤ h.iHighest symbol tf count start ∧ h.iHighest symbol tf count start < start + count ∧
    ∀ i, start ≤ i → i < start + count →
      h.iHigh symbol tf i ≤ h.iHigh symbol tf (h.iHighest symbol tf count start)) ∧
  (start ≤ h.iLowest symbol tf count start ∧ h.iLowest symbol tf count start < start + count ∧
    ∀ i, start ≤ i → i < start + count →
      h.iLow symbol tf (h.iLowest symbol tf count start) ≤ h.iLow symbol tf i)


theorem MathAbs_eq_abs (x : ℚ) : MathAbs x = |x| := by
  unfold MathAbs
  split
  · rename_i hx
    exact (abs_of_neg hx).symm
  · rename_i hx
    exact (abs_of_nonneg (not_lt.mp hx)).symm

/-- A read inside the array returns the bar at that position. -/
theorem index_ok (rates : List MqlRates) (i : Int) (h0 : 0 ≤ i)
    (hlt : i.toNat < rates.length) :
    index rates i = Except.ok (rates.get ⟨i.toNat, hlt⟩) := by
  unfold index
  rw [if_neg (not_lt.mpr h0), List.get?_eq_get hlt]

/-- `CalculateFib` returns a level when `ArrayMaximum` and `ArrayMinimum` return
positions inside the array. -/
theorem CalculateFib_ok (h : Host) (rates : List MqlRates) (level : ℚ)
    (hmax0 : 0 ≤ h.ArrayMaximum rates) (hmax : (h.ArrayMaximum rates).toNat < rates.length)
    (hmin0 : 0 ≤ h.ArrayMinimum rates) (hmin : (h.ArrayMinimum rates).toNat < rates.length) :
    ∃ fib, CalculateFib h rates level = Except.ok fib := by
  unfold CalculateFib
  rw [index_ok rates _ hmax0 hmax, index_ok rates _ hmin0 hmin]
  exact ⟨_, rfl⟩

/-! ## Order block detection -/

/-- C1. On a window whose first two bars are `cur` and `prev`, with
`fib = CalculateFib(window, FibLevel1)` and the proximity `point * 50`, `DetectOB`
returns `BOB` exactly when `cur.close > cur.open`, `cur.volume > prev.volume * OB_VolumeMult`
and `|cur.open - fib| < point * 50`; it returns `BEAROB` exactly when `cur.close < cur.open`
and the same volume and proximity tests hold; it returns `WRONG_VALUE` exactly when
neither holds. -/
theorem DetectOB_iff (h : Host) (cfg : Inputs) (symbol : String)
    (cur prev : MqlRates) (rest : List MqlRates) (fib : ℚ)
    (hwin : h.CopyRates symbol cfg.HighTF1 0 cfg.OB_Lookback = cur :: prev :: rest)
    (hfib : CalculateFib h (cur :: prev :: rest) cfg.FibLevel1 = Except.ok fib) :
    (DetectOB h cfg symbol = Except.ok ENUM_OB_TYPE.BOB ↔
      (cur.close > cur.open_ ∧ cur.volume > prev.volume * cfg.OB_VolumeMult ∧
        |cur.open_ - fib| < h.SYMBOL_POINT symbol * 50)) ∧
    (DetectOB h cfg symbol = Except.ok ENUM_OB_TYPE.BEAROB ↔
      (cur.close < cur.open_ ∧ cur.volume > prev.volume * cfg.OB_VolumeMult ∧
        |cur.open_ - fib| < h.SYMBOL_POINT symbol * 50)) ∧
    (DetectOB h cfg symbol = Except.ok ENUM_OB_TYPE.WRONG_VALUE ↔
      (¬ (cur.close > cur.open_ ∧ cur.volume > prev.volume * cfg.OB_VolumeMult ∧
          |cur.open_ - fib| < h.SYMBOL_POINT symbol * 50) ∧
       ¬ (cur.close < cur.open_ ∧ cur.volume > prev.volume * cfg.OB_VolumeMult ∧
          |cur.open_ - fib| < h.SYMBOL_POINT symbol * 50))) := by
  simp only [DetectOB, DetectOB.classify, hwin, hfib, bobCondition, bearobCondition, index,
    MathAbs_eq_abs]
  rcases lt_trichotomy cur.close cur.open_ with hlt | heq | hgt
  · have hng : ¬ cur.close > cur.open_ := lt_asymm hlt
    by_cases hvol : cur.volume > prev.volume * cfg.OB_VolumeMult <;>
      by_cases hgap : |cur.open_ - fib| < h.SYMBOL_POINT symbol * 50 <;>
      simp [hlt, hng, hvol, hgap]
  · have hng : ¬ cur.close > cur.open_ := by rw [heq]; exact lt_irrefl _
    have hnl : ¬ cur.close < cur.open_ := by rw [heq]; exact lt_irrefl _
    simp [hng, hnl]
  · have hnl : ¬ cur.close < cur.open_ := lt_asymm hgt
    have hgt' : cur.close > cur.open_ := hgt
    by_cases hvol : cur.volume > prev.volume * cfg.OB_VolumeMult <;>
      by_cases hgap : |cur.open_ - fib| < h.SYMBOL_POINT symbol * 50 <;>
      simp [hgt', hnl, hvol, hgap]

/-- C1, run on the bars of the specification: a bullish bar with twice the
volume of the previous one, opening next to the retracement level. -/
theorem DetectOB_iff_witness :
    DetectOB demoHost {} "EURUSD" = Except.ok ENUM_OB_TYPE.BOB :=
  ((DetectOB_iff demoHost {} "EURUSD"
      { open_ := 110 / 100, high := 113 / 100, low := 108 / 100, close := 112 / 100,
        volume := 200 }
      { open_ := 109 / 100, high := 110 / 100, low := 1085 / 1000, close := 1095 / 1000,
        volume := 100 } [] (10991 / 10000) (by decide!) (by decide!)).1).2
    (by decide!)

/-! ## Risk and lot size -/

/-- C2. `CalculateRisk` is the step function of the specification: 2 when
dynamic risk is off; otherwise 20 up to an equity of 10, 2 up to 200 and 1 above.
So it is 20 at equity 5, 2 at 150 and 1 at 1000, and it always lies in (0,100]. -/
theorem CalculateRisk_step (cfg : Inputs) (equity : ℚ) :
    (cfg.UseDynamicRisk = false → CalculateRisk cfg equity = 2) ∧
    (cfg.UseDynamicRisk = true →
      (equity ≤ 10 → CalculateRisk cfg equity = 20) ∧
      (10 < equity → equity ≤ 200 → CalculateRisk cfg equity = 2) ∧
      (200 < equity → CalculateRisk cfg equity = 1)) ∧
    (cfg.UseDynamicRisk = true →
      CalculateRisk cfg 5 = 20 ∧ CalculateRisk cfg 150 = 2 ∧ CalculateRisk cfg 1000 = 1) ∧
    (0 < CalculateRisk cfg equity ∧ CalculateRisk cfg equity ≤ 100) := by
  refine ⟨?_, ?_, ?_, ?_⟩
  · intro hd
    simp [CalculateRisk, hd]
  · intro hd
    refine ⟨?_, ?_, ?_⟩
    · intro h1
      simp [CalculateRisk, hd, h1]
    · intro h1 h2
      simp [CalculateRisk, hd, not_le.mpr h1, h2]
    · intro h1
      have h2 : ¬ equity ≤ 10 := not_le.mpr (lt_trans (by norm_num) h1)
      simp [CalculateRisk, hd, h2, not_le.mpr h1]
  · intro hd
    refine ⟨?_, ?_, ?_⟩ <;> norm_num [CalculateRisk, hd]
  · unfold CalculateRisk
    split_ifs <;> norm_num

/-- C2 at the equities named by the specification, dynamic risk on. -/
theorem CalculateRisk_step_witness :
    CalculateRisk {} 5 = 20 ∧ CalculateRisk {} 150 = 2 ∧ CalculateRisk {} 1000 = 1 :=
  (CalculateRisk_step {} 0).2.2.1 rfl

theorem MathMin_eq_min (a b : ℚ) : MathMin a b = min a b := by
  unfold MathMin
  split
  · rename_i hab
    exact (min_eq_left (le_of_lt hab)).symm
  · rename_i hab
    exact (min_eq_right (not_lt.mp hab)).symm

theorem MathRound_nonneg {x : ℚ} (hx : 0 ≤ x) : 0 ≤ MathRound x := by
  unfold MathRound
  rw [if_pos hx]
  exact Int.floor_nonneg.mpr (by linarith)

theorem NormalizeDouble_nonneg {x : ℚ} (hx : 0 ≤ x) (digits : ℕ) :
    0 ≤ NormalizeDouble x digits := by
  unfold NormalizeDouble
  have h1 : 0 ≤ x * 10 ^ digits := mul_nonneg hx (by positivity)
  have h2 : (0 : ℚ) ≤ (MathRound (x * 10 ^ digits) : ℚ) := by
    exact_mod_cast MathRound_nonneg h1
  exact div_nonneg h2 (by positivity)

theorem CalculateRisk_pos (cfg : Inputs) (equity : ℚ) : 0 < CalculateRisk cfg equity := by
  unfold CalculateRisk
  split_ifs <;> norm_num

/-- The result of `OptimalLot` when no divisor is zero. -/
theorem OptimalLot_ok (h : Host) (equity : ℚ) (symbol : String) (risk entry sl : ℚ)
    (hpoint : h.SYMBOL_POINT symbol ≠ 0)
    (hden : MathAbs (entry - sl) / h.SYMBOL_POINT symbol * h.SYMBOL_TRADE_TICK_VALUE symbol ≠ 0) :
    OptimalLot h equity symbol risk entry sl =
      Except.ok (NormalizeDouble (equity * (risk / 100) /
        (MathAbs (entry - sl) / h.SYMBOL_POINT symbol * h.SYMBOL_TRADE_TICK_VALUE symbol)) 2) := by
  simp [OptimalLot, fdiv, hpoint, hden]

/-- The result of `OptimalLot` when a divisor is zero: the program is stopped. -/
theorem OptimalLot_zero (h : Host) (equity : ℚ) (symbol : String) (risk entry sl : ℚ)
    (hden : h.SYMBOL_POINT symbol = 0 ∨
      MathAbs (entry - sl) / h.SYMBOL_POINT symbol * h.SYMBOL_TRADE_TICK_VALUE symbol = 0) :
    OptimalLot h equity symbol risk entry sl = Except.error Fault.zeroDivide := by
  by_cases hpoint : h.SYMBOL_POINT symbol = 0
  · simp [OptimalLot, fdiv, hpoint]
  · rcases hden with h0 | h0
    · exact absurd h0 hpoint
    · simp [OptimalLot, fdiv, hpoint, h0]

/-- An order appended by `ExecuteTrade` carries the symbol, the type, the price,
the stop and the lot computed by `ExecuteTrade.lot`. -/
theorem ExecuteTrade_orders_append (h : Host) (cfg : Inputs) (symbol : String)
    (type : ENUM_ORDER_TYPE) (obType : ENUM_OB_TYPE) (o : Outcome) (r : TradeRequest)
    (hr : (ExecuteTrade h cfg symbol type obType o).orders = o.orders ++ [r]) :
    ∃ lot, ExecuteTrade.lot h cfg o.session.equity symbol type = Except.ok lot ∧
      r = { symbol := symbol, type := type, volume := lot,
            price := ExecuteTrade.price h symbol type,
            sl := ExecuteTrade.sl h cfg symbol type } := by
  unfold ExecuteTrade at hr
  cases hlot : ExecuteTrade.lot h cfg o.session.equity symbol type with
  | error f =>
    rw [hlot] at hr
    simp at hr
  | ok lot =>
    rw [hlot] at hr
    refine ⟨lot, rfl, ?_⟩
    by_cases hacc : h.PositionOpen symbol type lot (ExecuteTrade.price h symbol type)
        (ExecuteTrade.sl h cfg symbol type) = true
    · simp [hacc] at hr
      exact hr.symm
    · simp [hacc] at hr
      exact hr.symm

/-- The orders after `ExecuteTrade` when the lot is computed. -/
theorem ExecuteTrade_orders_of_lot (h : Host) (cfg : Inputs) (symbol : String)
    (type : ENUM_ORDER_TYPE) (obType : ENUM_OB_TYPE) (o : Outcome) (lot : ℚ)
    (hlot : ExecuteTrade.lot h cfg o.session.equity symbol type = Except.ok lot) :
    (ExecuteTrade h cfg symbol type obType o).orders =
      o.orders ++ [{ symbol := symbol, type := type, volume := lot,
                     price := ExecuteTrade.price h symbol type,
                     sl := ExecuteTrade.sl h cfg symbol type }] ∧
    (ExecuteTrade h cfg symbol type obType o).fault = o.fault := by
  unfold ExecuteTrade
  rw [hlot]
  by_cases hacc : h.PositionOpen symbol type lot (ExecuteTrade.price h symbol type)
      (ExecuteTrade.sl h cfg symbol type) = true
  · simp [hacc]
  · simp [hacc]

/-- The outcome of `ExecuteTrade` when the lot computation stops the program. -/
theorem ExecuteTrade_of_fault (h : Host) (cfg : Inputs) (symbol : String)
    (type : ENUM_ORDER_TYPE) (obType : ENUM_OB_TYPE) (o : Outcome) (f : Fault)
    (hlot : ExecuteTrade.lot h cfg o.session.equity symbol type = Except.error f) :
    ExecuteTrade h cfg symbol type obType o = { o with fault := some f } := by
  unfold ExecuteTrade
  rw [hlot]

/-- The lot computed by `ExecuteTrade.lot` is the smaller of an `OptimalLot`
result and the maximum volume. -/
theorem ExecuteTrade_lot_ok (h : Host) (cfg : Inputs) (equity : ℚ) (symbol : String)
    (type : ENUM_ORDER_TYPE) (lot : ℚ)
    (hlot : ExecuteTrade.lot h cfg equity symbol type = Except.ok lot) :
    ∃ optimal, OptimalLot h equity symbol (CalculateRisk cfg equity)
        (ExecuteTrade.price h symbol type) (ExecuteTrade.sl h cfg symbol type) =
          Except.ok optimal ∧
      lot = min optimal (h.SYMBOL_VOLUME_MAX symbol) := by
  unfold ExecuteTrade.lot at hlot
  cases hopt : OptimalLot h equity symbol (CalculateRisk cfg equity)
      (ExecuteTrade.price h symbol type) (ExecuteTrade.sl h cfg symbol type) with
  | error f =>
    simp [hopt] at hlot
  | ok optimal =>
    simp only [hopt, Except.ok.injEq] at hlot
    exact ⟨optimal, rfl, by rw [← hlot, MathMin_eq_min]⟩

/-- C4. Whatever the inputs, the volume of an order that `ExecuteTrade` hands to
`trade.PositionOpen` is at most the symbol's maximum volume. -/
theorem ExecuteTrade_lot_le_max (h : Host) (cfg : Inputs) (symbol : String)
    (type : ENUM_ORDER_TYPE) (obType : ENUM_OB_TYPE) (o : Outcome) (r : TradeRequest)
    (hr : (ExecuteTrade h cfg symbol type obType o).orders = o.orders ++ [r]) :
    r.volume ≤ h.SYMBOL_VOLUME_MAX symbol := by
  obtain ⟨lot, hlot, hreq⟩ := ExecuteTrade_orders_append h cfg symbol type obType o r hr
  obtain ⟨optimal, _, hmin⟩ := ExecuteTrade_lot_ok h cfg _ symbol type lot hlot
  rw [hreq]
  show lot ≤ h.SYMBOL_VOLUME_MAX symbol
  rw [hmin]
  exact min_le_right _ _

/-- C4 on a terminal whose maximum volume is a tenth of a lot: the raw lot of
0.5 is cut down to it. -/
theorem ExecuteTrade_lot_le_max_witness :
    (ExecuteTrade smallMaxHost {} "EURUSD" ENUM_ORDER_TYPE.ORDER_TYPE_BUY ENUM_OB_TYPE.BOB
      demoStart).orders = demoStart.orders ++
        [{ symbol := "EURUSD", type := ENUM_ORDER_TYPE.ORDER_TYPE_BUY, volume := 1 / 10,
           price := 12 / 10, sl := 1198 / 1000 }] ∧
    (1 / 10 : ℚ) ≤ smallMaxHost.SYMBOL_VOLUME_MAX "EURUSD" :=
  ⟨by decide!,
    ExecuteTrade_lot_le_max smallMaxHost {} "EURUSD" ENUM_ORDER_TYPE.ORDER_TYPE_BUY
      ENUM_OB_TYPE.BOB demoStart
      { symbol := "EURUSD", type := ENUM_ORDER_TYPE.ORDER_TYPE_BUY, volume := 1 / 10,
        price := 12 / 10, sl := 1198 / 1000 } (by decide!)⟩

/-- C5 as stated fails: with an account equity of -100 a qualifying cycle
submits two buy orders of -1 lot. -/
theorem lot_negative_on_debt :
    (OnTick debtHost {} Session.init).orders =
      [{ symbol := "XAUUSD", type := ENUM_ORDER_TYPE.ORDER_TYPE_BUY, volume := -1,
         price := 12 / 10, sl := 1198 / 1000 },
       { symbol := "EURUSD", type := ENUM_ORDER_TYPE.ORDER_TYPE_BUY, volume := -1,
         price := 12 / 10, sl := 1198 / 1000 }] ∧
    ¬ ∀ r ∈ (OnTick debtHost {} Session.init).orders, 0 ≤ r.volume := by
  decide!

/-- A successful `OptimalLot` had non-zero divisors and returns the rounded quotient. -/
theorem OptimalLot_of_ok (h : Host) (equity : ℚ) (symbol : String) (risk entry sl q : ℚ)
    (hq : OptimalLot h equity symbol risk entry sl = Except.ok q) :
    h.SYMBOL_POINT symbol ≠ 0 ∧
    MathAbs (entry - sl) / h.SYMBOL_POINT symbol * h.SYMBOL_TRADE_TICK_VALUE symbol ≠ 0 ∧
    q = NormalizeDouble (equity * (risk / 100) /
        (MathAbs (entry - sl) / h.SYMBOL_POINT symbol * h.SYMBOL_TRADE_TICK_VALUE symbol)) 2 := by
  by_cases hpoint : h.SYMBOL_POINT symbol = 0
  · rw [OptimalLot_zero h equity symbol risk entry sl (Or.inl hpoint)] at hq
    simp at hq
  · by_cases hden : MathAbs (entry - sl) / h.SYMBOL_POINT symbol *
        h.SYMBOL_TRADE_TICK_VALUE symbol = 0
    · rw [OptimalLot_zero h equity symbol risk entry sl (Or.inr hden)] at hq
      simp at hq
    · rw [OptimalLot_ok h equity symbol risk entry sl hpoint hden] at hq
      simp only [Except.ok.injEq] at hq
      exact ⟨hpoint, hden, hq.symm⟩

/-- C5, amended. With a non-negative equity, tick value, point size and maximum
volume, the volume of an order that `ExecuteTrade` hands to `trade.PositionOpen`
is never negative. -/
theorem ExecuteTrade_lot_nonneg (h : Host) (cfg : Inputs) (symbol : String)
    (type : ENUM_ORDER_TYPE) (obType : ENUM_OB_TYPE) (o : Outcome) (r : TradeRequest)
    (hequity : 0 ≤ o.session.equity)
    (htick : 0 ≤ h.SYMBOL_TRADE_TICK_VALUE symbol)
    (hpoint : 0 ≤ h.SYMBOL_POINT symbol)
    (hmax : 0 ≤ h.SYMBOL_VOLUME_MAX symbol)
    (hr : (ExecuteTrade h cfg symbol type obType o).orders = o.orders ++ [r]) :
    0 ≤ r.volume := by
  obtain ⟨lot, hlot, hreq⟩ := ExecuteTrade_orders_append h cfg symbol type obType o r hr
  obtain ⟨optimal, hopt, hmin⟩ := ExecuteTrade_lot_ok h cfg _ symbol type lot hlot
  obtain ⟨_, _, hq⟩ := OptimalLot_of_ok h _ symbol _ _ _ optimal hopt
  rw [hreq]
  show 0 ≤ lot
  rw [hmin]
  refine le_min ?_ hmax
  rw [hq]
  apply NormalizeDouble_nonneg
  have hrisk : 0 ≤ CalculateRisk cfg o.session.equity / 100 :=
    div_nonneg (le_of_lt (CalculateRisk_pos cfg _)) (by norm_num)
  have habs : 0 ≤ MathAbs (ExecuteTrade.price h symbol type -
      ExecuteTrade.sl h cfg symbol type) := by
    rw [MathAbs_eq_abs]
    exact abs_nonneg _
  exact div_nonneg (mul_nonneg hequity hrisk) (mul_nonneg (div_nonneg habs hpoint) htick)

/-- C5, amended, on `demoHost`: the buy of 0.5 lots. -/
theorem ExecuteTrade_lot_nonneg_witness :
    (ExecuteTrade demoHost {} "EURUSD" ENUM_ORDER_TYPE.ORDER_TYPE_BUY ENUM_OB_TYPE.BOB
      demoStart).orders = demoStart.orders ++
        [{ symbol := "EURUSD", type := ENUM_ORDER_TYPE.ORDER_TYPE_BUY, volume := 1 / 2,
           price := 12 / 10, sl := 1198 / 1000 }] ∧
    (0 : ℚ) ≤ 1 / 2 :=
  ⟨by decide!,
    ExecuteTrade_lot_nonneg demoHost {} "EURUSD" ENUM_ORDER_TYPE.ORDER_TYPE_BUY
      ENUM_OB_TYPE.BOB demoStart
      { symbol := "EURUSD", type := ENUM_ORDER_TYPE.ORDER_TYPE_BUY, volume := 1 / 2,
        price := 12 / 10, sl := 1198 / 1000 }
      (by decide!) (by decide!) (by decide!) (by decide!) (by decide!)⟩

/-- C6. When the price distance `|price - sl| / point` or the tick value is zero,
lot sizing fails with a division by zero and `ExecuteTrade` submits nothing: the
orders, the globals (trade counter, last trade time) and the log are as before. -/
theorem ExecuteTrade_zero_divisor (h : Host) (cfg : Inputs) (symbol : String)
    (type : ENUM_ORDER_TYPE) (obType : ENUM_OB_TYPE) (o : Outcome)
    (hzero : |ExecuteTrade.price h symbol type - ExecuteTrade.sl h cfg symbol type| /
        h.SYMBOL_POINT symbol = 0 ∨ h.SYMBOL_TRADE_TICK_VALUE symbol = 0) :
    OptimalLot h o.session.equity symbol (CalculateRisk cfg o.session.equity)
        (ExecuteTrade.price h symbol type) (ExecuteTrade.sl h cfg symbol type) =
      Except.error Fault.zeroDivide ∧
    (ExecuteTrade h cfg symbol type obType o).orders = o.orders ∧
    (ExecuteTrade h cfg symbol type obType o).session = o.session ∧
    (ExecuteTrade h cfg symbol type obType o).logs = o.logs ∧
    (ExecuteTrade h cfg symbol type obType o).fault = some Fault.zeroDivide := by
  have hden : h.SYMBOL_POINT symbol = 0 ∨
      MathAbs (ExecuteTrade.price h symbol type - ExecuteTrade.sl h cfg symbol type) /
        h.SYMBOL_POINT symbol * h.SYMBOL_TRADE_TICK_VALUE symbol = 0 := by
    right
    rw [MathAbs_eq_abs]
    rcases hzero with h0 | h0
    · rw [h0, zero_mul]
    · rw [h0, mul_zero]
  have hopt := OptimalLot_zero h o.session.equity symbol (CalculateRisk cfg o.session.equity)
    (ExecuteTrade.price h symbol type) (ExecuteTrade.sl h cfg symbol type) hden
  have hlot : ExecuteTrade.lot h cfg o.session.equity symbol type =
      Except.error Fault.zeroDivide := by
    unfold ExecuteTrade.lot
    simp only [hopt]
  rw [ExecuteTrade_of_fault h cfg symbol type obType o _ hlot]
  exact ⟨hopt, rfl, rfl, rfl, rfl⟩

/-- C6 on a terminal that reports a tick value of zero. -/
theorem ExecuteTrade_zero_divisor_witness :
    (ExecuteTrade zeroTickHost {} "EURUSD" ENUM_ORDER_TYPE.ORDER_TYPE_BUY ENUM_OB_TYPE.BOB
      demoStart).orders = demoStart.orders ∧
    (ExecuteTrade zeroTickHost {} "EURUSD" ENUM_ORDER_TYPE.ORDER_TYPE_BUY ENUM_OB_TYPE.BOB
      demoStart).session = demoStart.session :=
  ⟨(ExecuteTrade_zero_divisor zeroTickHost {} "EURUSD" ENUM_ORDER_TYPE.ORDER_TYPE_BUY
      ENUM_OB_TYPE.BOB demoStart (Or.inr (by decide!))).2.1,
   (ExecuteTrade_zero_divisor zeroTickHost {} "EURUSD" ENUM_ORDER_TYPE.ORDER_TYPE_BUY
      ENUM_OB_TYPE.BOB demoStart (Or.inr (by decide!))).2.2.1⟩

/-! ## Entry filter and trend -/

/-- C7. `CheckEntry` returns true for a long exactly when the oscillator is below
`RSIOversold`, `CheckFVG` returns true for a long and `CheckMSS` holds for a long;
for a short exactly when the oscillator is above `RSIOverbought` and the short gap
and the short shift hold.  Whenever the gap check returns a value and one of the
three sub-checks of the direction is false, `CheckEntry` returns false. -/
theorem CheckEntry_iff (h : Host) (cfg : Inputs) (symbol : String) :
    (CheckEntry h cfg symbol true = Except.ok true ↔
      (h.iRSI symbol cfg.EntryTF cfg.RSIPeriod < cfg.RSIOversold ∧
        CheckFVG h cfg symbol true = Except.ok true ∧ CheckMSS h cfg symbol true = true)) ∧
    (CheckEntry h cfg symbol false = Except.ok true ↔
      (h.iRSI symbol cfg.EntryTF cfg.RSIPeriod > cfg.RSIOverbought ∧
        CheckFVG h cfg symbol false = Except.ok true ∧ CheckMSS h cfg symbol false = true)) ∧
    (∀ fvg : Bool, CheckFVG h cfg symbol true = Except.ok fvg →
      ¬ (h.iRSI symbol cfg.EntryTF cfg.RSIPeriod < cfg.RSIOversold ∧ fvg = true ∧
          CheckMSS h cfg symbol true = true) →
      CheckEntry h cfg symbol true = Except.ok false) ∧
    (∀ fvg : Bool, CheckFVG h cfg symbol false = Except.ok fvg →
      ¬ (h.iRSI symbol cfg.EntryTF cfg.RSIPeriod > cfg.RSIOverbought ∧ fvg = true ∧
          CheckMSS h cfg symbol false = true) →
      CheckEntry h cfg symbol false = Except.ok false) := by
  refine ⟨?_, ?_, ?_, ?_⟩
  · unfold CheckEntry
    cases hf : CheckFVG h cfg symbol true with
    | error f => simp
    | ok fvg => simp [and_assoc]
  · unfold CheckEntry
    cases hf : CheckFVG h cfg symbol false with
    | error f => simp
    | ok fvg => simp [and_assoc]
  · intro fvg hf hnot
    unfold CheckEntry
    simp only [hf]
    by_cases h1 : h.iRSI symbol cfg.EntryTF cfg.RSIPeriod < cfg.RSIOversold
    · by_cases h2 : fvg = true
      · by_cases h3 : CheckMSS h cfg symbol true = true
        · exact absurd ⟨h1, h2, h3⟩ hnot
        · simp [h3]
      · simp [h2]
    · simp [h1]
  · intro fvg hf hnot
    unfold CheckEntry
    simp only [hf]
    by_cases h1 : h.iRSI symbol cfg.EntryTF cfg.RSIPeriod > cfg.RSIOverbought
    · by_cases h2 : fvg = true
      · by_cases h3 : CheckMSS h cfg symbol false = true
        · exact absurd ⟨h1, h2, h3⟩ hnot
        · simp [h3]
      · simp [h2]
    · simp [h1]

/-- C7 on `demoHost` (all three long sub-checks hold, so the long entry
qualifies) and on the same terminal with an oscillator of 35 (the long entry no
longer qualifies). -/
theorem CheckEntry_iff_witness :
    CheckEntry demoHost {} "EURUSD" true = Except.ok true ∧
    CheckEntry { demoHost with iRSI := fun _ _ _ => 35 } {} "EURUSD" true = Except.ok false :=
  ⟨(CheckEntry_iff demoHost {} "EURUSD").1.mpr ⟨by decide!, by decide!, by decide!⟩,
   (CheckEntry_iff { demoHost with iRSI := fun _ _ _ => 35 } {} "EURUSD").2.2.1 true
      (by decide!) (by decide!)⟩

/-- C8 as stated fails: on `mixedHost` the uptrend test holds on the first trend
timeframe and fails on the second, and both symbols take the sell path. -/
theorem sell_path_on_mixed_trend :
    GetTrend mixedHost {} "EURUSD" ENUM_TIMEFRAMES.PERIOD_H1 = true ∧
    GetTrend mixedHost {} "EURUSD" ENUM_TIMEFRAMES.PERIOD_M30 = false ∧
    OnTick.path mixedHost {} "EURUSD" =
      Except.ok (some (ENUM_ORDER_TYPE.ORDER_TYPE_SELL, ENUM_OB_TYPE.BEAROB)) ∧
    (OnTick mixedHost {} Session.init).orders =
      [{ symbol := "XAUUSD", type := ENUM_ORDER_TYPE.ORDER_TYPE_SELL, volume := 1 / 2,
         price := 11999 / 10000, sl := 12019 / 10000 },
       { symbol := "EURUSD", type := ENUM_ORDER_TYPE.ORDER_TYPE_SELL, volume := 1 / 2,
         price := 11999 / 10000, sl := 12019 / 10000 }] := by
  decide!

/-- The branch `OnTick` takes, by cases on the classification and the trend. -/
theorem OnTick_path_cases (h : Host) (cfg : Inputs) (symbol : String)
    (type : ENUM_ORDER_TYPE) (obType : ENUM_OB_TYPE)
    (hp : OnTick.path h cfg symbol = Except.ok (some (type, obType))) :
    DetectOB h cfg symbol = Except.ok obType ∧
    ((type = ENUM_ORDER_TYPE.ORDER_TYPE_BUY ∧ obType = ENUM_OB_TYPE.BOB ∧
        (GetTrend h cfg symbol cfg.HighTF1 && GetTrend h cfg symbol cfg.HighTF2) = true ∧
        CheckEntry h cfg symbol true = Except.ok true) ∨
     (type = ENUM_ORDER_TYPE.ORDER_TYPE_SELL ∧ obType = ENUM_OB_TYPE.BEAROB ∧
        (GetTrend h cfg symbol cfg.HighTF1 && GetTrend h cfg symbol cfg.HighTF2) = false ∧
        CheckEntry h cfg symbol false = Except.ok true)) := by
  unfold OnTick.path at hp
  cases hob : DetectOB h cfg symbol with
  | error f => simp [hob] at hp
  | ok ob =>
    simp only [hob] at hp
    cases htrend : (GetTrend h cfg symbol cfg.HighTF1 && GetTrend h cfg symbol cfg.HighTF2)
    · -- not an overall uptrend: only the sell branch is open
      simp only [htrend, Bool.false_and, Bool.not_false, Bool.true_and] at hp
      by_cases hbear : ob = ENUM_OB_TYPE.BEAROB
      · subst hbear
        cases hce : CheckEntry h cfg symbol false with
        | error f => simp [hce] at hp
        | ok c =>
          cases c
          · simp [hce] at hp
          · simp [hce] at hp
            obtain ⟨ht, ho⟩ := hp
            exact ⟨by rw [← ho], Or.inr ⟨ht.symm, ho.symm, rfl, rfl⟩⟩
      · have hbeq : (ob == ENUM_OB_TYPE.BEAROB) = false := by simpa using hbear
        simp [hbeq] at hp
    · -- overall uptrend: only the buy branch is open
      simp only [htrend, Bool.true_and, Bool.not_true, Bool.false_and] at hp
      by_cases hbull : ob = ENUM_OB_TYPE.BOB
      · subst hbull
        cases hce : CheckEntry h cfg symbol true with
        | error f => simp [hce] at hp
        | ok c =>
          cases c
          · simp [hce] at hp
          · simp [hce] at hp
            obtain ⟨ht, ho⟩ := hp
            exact ⟨by rw [← ho], Or.inl ⟨ht.symm, ho.symm, rfl, rfl⟩⟩
      · have hbeq : (ob == ENUM_OB_TYPE.BOB) = false := by simpa using hbull
        simp [hbeq] at hp

/-- C8, amended. `OnTick` takes the buy path for a symbol only when the uptrend test
`emaFast > emaSlow` holds on both trend timeframes, and the sell path only when it
fails on at least one of them; so a symbol whose two timeframes disagree never
takes the buy path. -/
theorem OnTick_path_trend (h : Host) (cfg : Inputs) (symbol : String) (obType : ENUM_OB_TYPE) :
    (OnTick.path h cfg symbol = Except.ok (some (ENUM_ORDER_TYPE.ORDER_TYPE_BUY, obType)) →
      h.iMA symbol cfg.HighTF1 cfg.EMAFast > h.iMA symbol cfg.HighTF1 cfg.EMASlow ∧
      h.iMA symbol cfg.HighTF2 cfg.EMAFast > h.iMA symbol cfg.HighTF2 cfg.EMASlow) ∧
    (OnTick.path h cfg symbol = Except.ok (some (ENUM_ORDER_TYPE.ORDER_TYPE_SELL, obType)) →
      ¬ h.iMA symbol cfg.HighTF1 cfg.EMAFast > h.iMA symbol cfg.HighTF1 cfg.EMASlow ∨
      ¬ h.iMA symbol cfg.HighTF2 cfg.EMAFast > h.iMA symbol cfg.HighTF2 cfg.EMASlow) := by
  constructor
  · intro hp
    obtain ⟨_, hcase⟩ := OnTick_path_cases h cfg symbol _ obType hp
    rcases hcase with ⟨_, _, htrend, _⟩ | ⟨ht, _, _, _⟩
    · simpa [GetTrend] using htrend
    · cases ht
  · intro hp
    obtain ⟨_, hcase⟩ := OnTick_path_cases h cfg symbol _ obType hp
    rcases hcase with ⟨ht, _, _, _⟩ | ⟨_, _, htrend, _⟩
    · cases ht
    · simp only [GetTrend, Bool.and_eq_false_iff, decide_eq_false_iff_not] at htrend
      exact htrend

/-- C8, amended, on `demoHost` (buy path, uptrend on both timeframes). -/
theorem OnTick_path_trend_witness :
    demoHost.iMA "EURUSD" ENUM_TIMEFRAMES.PERIOD_H1 50 >
      demoHost.iMA "EURUSD" ENUM_TIMEFRAMES.PERIOD_H1 200 ∧
    demoHost.iMA "EURUSD" ENUM_TIMEFRAMES.PERIOD_M30 50 >
      demoHost.iMA "EURUSD" ENUM_TIMEFRAMES.PERIOD_M30 200 :=
  (OnTick_path_trend demoHost {} "EURUSD" ENUM_OB_TYPE.BOB).1 (by decide!)

/-! ## The decision cycle -/

/-- The three ways `ExecuteTrade` can end: stopped by the lot computation, order
accepted, order rejected. -/
theorem ExecuteTrade_cases (h : Host) (cfg : Inputs) (symbol : String)
    (type : ENUM_ORDER_TYPE) (obType : ENUM_OB_TYPE) (o : Outcome) :
    (∃ f, ExecuteTrade h cfg symbol type obType o = { o with fault := some f }) ∨
    (∃ lot, h.PositionOpen symbol type lot (ExecuteTrade.price h symbol type)
          (ExecuteTrade.sl h cfg symbol type) = true ∧
        ExecuteTrade h cfg symbol type obType o =
          { o with
            session := { o.session with
              tradeCountToday := wrapInt32 (o.session.tradeCountToday + 1),
              lastTradeTime := h.TimeCurrent },
            orders := o.orders ++ [ExecuteTrade.request h cfg symbol type lot],
            logs := o.logs ++ [LogTrade h o.session symbol type obType lot
              (ExecuteTrade.sl h cfg symbol type)] }) ∨
    (∃ lot, h.PositionOpen symbol type lot (ExecuteTrade.price h symbol type)
          (ExecuteTrade.sl h cfg symbol type) = false ∧
        ExecuteTrade h cfg symbol type obType o =
          { o with orders := o.orders ++ [ExecuteTrade.request h cfg symbol type lot] }) := by
  unfold ExecuteTrade
  cases hlot : ExecuteTrade.lot h cfg o.session.equity symbol type with
  | error f => exact Or.inl ⟨f, rfl⟩
  | ok lot =>
    cases hacc : h.PositionOpen symbol type lot (ExecuteTrade.price h symbol type)
        (ExecuteTrade.sl h cfg symbol type)
    · refine Or.inr (Or.inr ⟨lot, hacc, ?_⟩)
      simp [hacc, ExecuteTrade.request]
    · refine Or.inr (Or.inl ⟨lot, hacc, ?_⟩)
      simp [hacc, ExecuteTrade.request]

/-- A property of outcomes that survives a critical error and `ExecuteTrade`
survives one iteration of the loop of `OnTick`. -/
theorem OnTick_body_preserve (h : Host) (cfg : Inputs) (P : Outcome → Prop)
    (hfault : ∀ o f, P o → P { o with fault := some f })
    (hexec : ∀ symbol type obType o, P o → P (ExecuteTrade h cfg symbol type obType o))
    (symbol : String) (o : Outcome) (ho : P o) : P (OnTick.body h cfg symbol o) := by
  unfold OnTick.body
  split
  · exact hfault _ _ ho
  · exact ho
  · exact hexec _ _ _ _ ho

/-- Such a property survives the whole loop of `OnTick`. -/
theorem OnTick_loop_preserve (h : Host) (cfg : Inputs) (P : Outcome → Prop)
    (hfault : ∀ o f, P o → P { o with fault := some f })
    (hexec : ∀ symbol type obType o, P o → P (ExecuteTrade h cfg symbol type obType o))
    (syms : List String) (o : Outcome) (ho : P o) : P (OnTick.loop h cfg syms o) := by
  induction syms generalizing o with
  | nil => exact ho
  | cons symbol rest ih =>
    have hb := OnTick_body_preserve h cfg P hfault hexec symbol o ho
    unfold OnTick.loop
    split
    · exact hb
    · exact ih _ hb

/-- The loop of `OnTick` does not change `equity`. -/
theorem OnTick_loop_equity (h : Host) (cfg : Inputs) (syms : List String) (o : Outcome) :
    (OnTick.loop h cfg syms o).session.equity = o.session.equity := by
  refine OnTick_loop_preserve h cfg (fun x => x.session.equity = o.session.equity)
    (fun _ _ hx => hx) ?_ syms o rfl
  intro symbol type obType x hx
  rcases ExecuteTrade_cases h cfg symbol type obType x with ⟨f, he⟩ | ⟨lot, _, he⟩ | ⟨lot, _, he⟩
  all_goals rw [he]; exact hx

/-- One iteration of the loop submits at most one order, for its own symbol. -/
theorem OnTick_body_orders (h : Host) (cfg : Inputs) (symbol : String) (o : Outcome) :
    (OnTick.body h cfg symbol o).orders = o.orders ∨
    ∃ r : TradeRequest, r.symbol = symbol ∧
      (OnTick.body h cfg symbol o).orders = o.orders ++ [r] := by
  unfold OnTick.body
  split
  · exact Or.inl rfl
  · exact Or.inl rfl
  · rename_i type obType _
    rcases ExecuteTrade_cases h cfg symbol type obType o with
      ⟨f, he⟩ | ⟨lot, _, he⟩ | ⟨lot, _, he⟩
    · rw [he]
      exact Or.inl rfl
    · rw [he]
      exact Or.inr ⟨_, rfl, rfl⟩
    · rw [he]
      exact Or.inr ⟨_, rfl, rfl⟩

/-- The loop over `syms` appends orders whose symbols are, in order, symbols of
`syms`, each at most once. -/
theorem OnTick_loop_orders (h : Host) (cfg : Inputs) (syms : List String) (o : Outcome) :
    ∃ new : List TradeRequest, (OnTick.loop h cfg syms o).orders = o.orders ++ new ∧
      (new.map TradeRequest.symbol).Sublist syms := by
  induction syms generalizing o with
  | nil => exact ⟨[], by simp [OnTick.loop], List.Sublist.slnil⟩
  | cons symbol rest ih =>
    unfold OnTick.loop
    split
    · rcases OnTick_body_orders h cfg symbol o with hb | ⟨r, hr, hb⟩
      · exact ⟨[], by simp [hb], List.nil_sublist _⟩
      · refine ⟨[r], hb, ?_⟩
        simp only [List.map_cons, List.map_nil, hr]
        exact List.Sublist.cons₂ _ (List.nil_sublist _)
    · obtain ⟨new, hnew, hsub⟩ := ih (OnTick.body h cfg symbol o)
      rcases OnTick_body_orders h cfg symbol o with hb | ⟨r, hr, hb⟩
      · exact ⟨new, by rw [hnew, hb], List.Sublist.cons _ hsub⟩
      · refine ⟨r :: new, by rw [hnew, hb]; simp, ?_⟩
        simp only [List.map_cons, hr]
        exact List.Sublist.cons₂ _ hsub

/-- A loop that was not stopped on a first list of symbols goes on with the next. -/
theorem OnTick_loop_append (h : Host) (cfg : Inputs) (pre rest : List String) (o : Outcome)
    (hpre : (OnTick.loop h cfg pre o).fault = none) :
    OnTick.loop h cfg (pre ++ rest) o = OnTick.loop h cfg rest (OnTick.loop h cfg pre o) := by
  induction pre generalizing o with
  | nil => rfl
  | cons symbol pre ih =>
    cases hb : (OnTick.body h cfg symbol o).fault with
    | some f =>
      simp [OnTick.loop, hb] at hpre
    | none =>
      simp only [List.cons_append, OnTick.loop, hb] at hpre ⊢
      exact ih _ hpre

theorem IsNewBar_lastTradeTime (h : Host) (s : Session) :
    (IsNewBar h s).2.lastTradeTime = s.lastTradeTime := by
  simp only [IsNewBar]
  split_ifs <;> rfl

/-- When the gate of `OnTick` is open the handler is its loop over `symbols`. -/
theorem OnTick_open (h : Host) (cfg : Inputs) (s : Session)
    (hbar : (IsNewBar h s).1 = true) (hcool : ¬ h.TimeCurrent - s.lastTradeTime < 2880) :
    OnTick h cfg s = OnTick.loop h cfg symbols (OnTick.start h s) := by
  unfold OnTick
  simp [hbar, IsNewBar_lastTradeTime, hcool]

/-- When the gate of `OnTick` is closed nothing is submitted and the globals other
than `lastBar` keep their values. -/
theorem OnTick_closed (h : Host) (cfg : Inputs) (s : Session)
    (hgate : (IsNewBar h s).1 = false ∨ h.TimeCurrent - s.lastTradeTime < 2880) :
    OnTick h cfg s = { session := (IsNewBar h s).2, orders := [], logs := [], fault := none } := by
  unfold OnTick
  rcases hgate with hg | hg
  · simp [hg]
  · simp [IsNewBar_lastTradeTime, hg]

/-- Filtering by a symbol that a list of orders does not mention leaves nothing. -/
theorem filter_symbol_nil (new : List TradeRequest) (syms : List String) (symbol : String)
    (hsub : (new.map TradeRequest.symbol).Sublist syms) (hnot : symbol ∉ syms) :
    new.filter (fun r => decide (r.symbol = symbol)) = [] := by
  rw [List.filter_eq_nil_iff]
  intro r hr
  have hmem : r.symbol ∈ syms := hsub.subset (List.mem_map_of_mem _ hr)
  intro heq
  have heq' : r.symbol = symbol := by simpa using heq
  exact hnot (heq' ▸ hmem)

theorem symbols_nodup : symbols.Nodup := by decide

/-- The orders of a cycle for a symbol that is reached, takes a branch and gets a
lot: exactly the one order of that branch. -/
theorem OnTick_filter_of_path (h : Host) (cfg : Inputs) (s : Session) (symbol : String)
    (pre post : List String) (type : ENUM_ORDER_TYPE) (obType : ENUM_OB_TYPE) (lot : ℚ)
    (hsym : symbols = pre ++ symbol :: post)
    (hbar : (IsNewBar h s).1 = true) (hcool : ¬ h.TimeCurrent - s.lastTradeTime < 2880)
    (hreach : (OnTick.loop h cfg pre (OnTick.start h s)).fault = none)
    (hpath : OnTick.path h cfg symbol = Except.ok (some (type, obType)))
    (hlot : ExecuteTrade.lot h cfg h.ACCOUNT_EQUITY symbol type = Except.ok lot) :
    (OnTick h cfg s).orders.filter (fun r => decide (r.symbol = symbol)) =
      [{ symbol := symbol, type := type, volume := lot,
         price := ExecuteTrade.price h symbol type,
         sl := ExecuteTrade.sl h cfg symbol type }] := by
  have hnodup : (pre ++ symbol :: post).Nodup := hsym ▸ symbols_nodup
  have hpre : symbol ∉ pre := by
    intro hmem
    exact (List.nodup_append.mp hnodup).2.2 hmem (List.mem_cons_self _ _)
  have hpost : symbol ∉ post :=
    (List.nodup_cons.mp (List.nodup_append.mp hnodup).2.1).1
  rw [OnTick_open h cfg s hbar hcool, hsym, OnTick_loop_append h cfg pre _ _ hreach]
  obtain ⟨new1, hnew1, hsub1⟩ := OnTick_loop_orders h cfg pre (OnTick.start h s)
  have hequity : (OnTick.loop h cfg pre (OnTick.start h s)).session.equity =
      h.ACCOUNT_EQUITY := OnTick_loop_equity h cfg pre (OnTick.start h s)
  have hbody : OnTick.body h cfg symbol (OnTick.loop h cfg pre (OnTick.start h s)) =
      ExecuteTrade h cfg symbol type obType (OnTick.loop h cfg pre (OnTick.start h s)) := by
    unfold OnTick.body
    rw [hpath]
  have hexec := ExecuteTrade_orders_of_lot h cfg symbol type obType
    (OnTick.loop h cfg pre (OnTick.start h s)) lot (by rw [hequity]; exact hlot)
  obtain ⟨new2, hnew2, hsub2⟩ := OnTick_loop_orders h cfg post
    (OnTick.body h cfg symbol (OnTick.loop h cfg pre (OnTick.start h s)))
  have hstep : OnTick.loop h cfg (symbol :: post) (OnTick.loop h cfg pre (OnTick.start h s)) =
      OnTick.loop h cfg post
        (OnTick.body h cfg symbol (OnTick.loop h cfg pre (OnTick.start h s))) := by
    have hnone : (OnTick.body h cfg symbol
        (OnTick.loop h cfg pre (OnTick.start h s))).fault = none := by
      rw [hbody, hexec.2, hreach]
    simp only [OnTick.loop, hnone]
  rw [hstep, hnew2, hbody, hexec.1, hnew1]
  have hstart : (OnTick.start h s).orders = [] := rfl
  rw [hstart, List.nil_append, List.filter_append, List.filter_append,
    filter_symbol_nil new1 pre symbol hsub1 hpre,
    filter_symbol_nil new2 post symbol hsub2 hpost]
  simp

/-- The lot computation succeeds when the point size and the tick value are not
zero and the computed stop differs from the price. -/
theorem ExecuteTrade_lot_of_distance (h : Host) (cfg : Inputs) (equity : ℚ) (symbol : String)
    (type : ENUM_ORDER_TYPE)
    (hpoint : h.SYMBOL_POINT symbol ≠ 0)
    (hdist : ExecuteTrade.price h symbol type ≠ ExecuteTrade.sl h cfg symbol type)
    (htick : h.SYMBOL_TRADE_TICK_VALUE symbol ≠ 0) :
    ∃ lot, ExecuteTrade.lot h cfg equity symbol type = Except.ok lot := by
  have hdiff : ExecuteTrade.price h symbol type - ExecuteTrade.sl h cfg symbol type ≠ 0 :=
    sub_ne_zero.mpr hdist
  have hden : MathAbs (ExecuteTrade.price h symbol type - ExecuteTrade.sl h cfg symbol type) /
      h.SYMBOL_POINT symbol * h.SYMBOL_TRADE_TICK_VALUE symbol ≠ 0 := by
    rw [MathAbs_eq_abs]
    exact mul_ne_zero (div_ne_zero (abs_ne_zero.mpr hdiff) hpoint) htick
  unfold ExecuteTrade.lot
  simp only [OptimalLot_ok h equity symbol _ _ _ hpoint hden]
  exact ⟨_, rfl⟩

/-- The buy branch is taken on an overall uptrend, a bullish order block and a
qualifying long entry. -/
theorem OnTick_path_buy (h : Host) (cfg : Inputs) (symbol : String)
    (htrend : (GetTrend h cfg symbol cfg.HighTF1 && GetTrend h cfg symbol cfg.HighTF2) = true)
    (hob : DetectOB h cfg symbol = Except.ok ENUM_OB_TYPE.BOB)
    (hentry : CheckEntry h cfg symbol true = Except.ok true) :
    OnTick.path h cfg symbol =
      Except.ok (some (ENUM_ORDER_TYPE.ORDER_TYPE_BUY, ENUM_OB_TYPE.BOB)) := by
  unfold OnTick.path
  simp [hob, htrend, hentry]

/-- The sell branch is taken without an overall uptrend, on a bearish order block
and a qualifying short entry. -/
theorem OnTick_path_sell (h : Host) (cfg : Inputs) (symbol : String)
    (htrend : (GetTrend h cfg symbol cfg.HighTF1 && GetTrend h cfg symbol cfg.HighTF2) = false)
    (hob : DetectOB h cfg symbol = Except.ok ENUM_OB_TYPE.BEAROB)
    (hentry : CheckEntry h cfg symbol false = Except.ok true) :
    OnTick.path h cfg symbol =
      Except.ok (some (ENUM_ORDER_TYPE.ORDER_TYPE_SELL, ENUM_OB_TYPE.BEAROB)) := by
  unfold OnTick.path
  simp [hob, htrend, hentry]

/-- C9 as stated fails: on a terminal that reports a tick value of zero the
first symbol is evaluated in an open cycle with an uptrend on both timeframes, a
bullish order block and all three long sub-checks true, and no order is
submitted for it: the lot computation divides by zero. -/
theorem no_intent_on_zero_tick_value :
    (IsNewBar zeroTickHost Session.init).1 = true ∧
    ¬ zeroTickHost.TimeCurrent - Session.init.lastTradeTime < 2880 ∧
    GetTrend zeroTickHost {} "XAUUSD" ENUM_TIMEFRAMES.PERIOD_H1 = true ∧
    GetTrend zeroTickHost {} "XAUUSD" ENUM_TIMEFRAMES.PERIOD_M30 = true ∧
    DetectOB zeroTickHost {} "XAUUSD" = Except.ok ENUM_OB_TYPE.BOB ∧
    zeroTickHost.iRSI "XAUUSD" ENUM_TIMEFRAMES.PERIOD_M5 14 < 30 ∧
    CheckFVG zeroTickHost {} "XAUUSD" true = Except.ok true ∧
    CheckMSS zeroTickHost {} "XAUUSD" true = true ∧
    (OnTick zeroTickHost {} Session.init).orders = [] ∧
    (OnTick zeroTickHost {} Session.init).fault = some Fault.zeroDivide := by
  decide!

/-- C9, amended. Take a symbol that an open decision cycle reaches (the loop was
not stopped on the symbols before it) and whose point size and tick value are not
zero.  With an uptrend on both trend timeframes, a bullish order block, all three
long sub-checks true and a computed stop that differs from the ask, the cycle
submits exactly one order for the symbol: a buy at the ask with the stop at
`ask - ATR * ATRMult`, which is below the ask when ATR and multiplier are positive.
Mirrored: without an overall uptrend, on a bearish order block, all three short
sub-checks and a computed stop that differs from the bid, exactly one sell at the bid
with the stop at `bid + ATR * ATRMult`, which is above the bid. -/
theorem OnTick_qualifying_intent (h : Host) (cfg : Inputs) (s : Session) (symbol : String)
    (pre post : List String)
    (hsym : symbols = pre ++ symbol :: post)
    (hbar : (IsNewBar h s).1 = true)
    (hcool : ¬ h.TimeCurrent - s.lastTradeTime < 2880)
    (hreach : (OnTick.loop h cfg pre (OnTick.start h s)).fault = none)
    (hpoint : h.SYMBOL_POINT symbol ≠ 0)
    (htick : h.SYMBOL_TRADE_TICK_VALUE symbol ≠ 0) :
    ((GetTrend h cfg symbol cfg.HighTF1 = true ∧ GetTrend h cfg symbol cfg.HighTF2 = true ∧
        DetectOB h cfg symbol = Except.ok ENUM_OB_TYPE.BOB ∧
        h.iRSI symbol cfg.EntryTF cfg.RSIPeriod < cfg.RSIOversold ∧
        CheckFVG h cfg symbol true = Except.ok true ∧ CheckMSS h cfg symbol true = true ∧
        ExecuteTrade.price h symbol ENUM_ORDER_TYPE.ORDER_TYPE_BUY ≠
          ExecuteTrade.sl h cfg symbol ENUM_ORDER_TYPE.ORDER_TYPE_BUY) →
      ∃ lot : ℚ,
        (OnTick h cfg s).orders.filter (fun r => decide (r.symbol = symbol)) =
          [{ symbol := symbol, type := ENUM_ORDER_TYPE.ORDER_TYPE_BUY, volume := lot,
             price := h.SYMBOL_ASK symbol,
             sl := h.SYMBOL_ASK symbol - h.iATR symbol cfg.EntryTF cfg.ATRPeriod * cfg.ATRMult }] ∧
        (0 < h.iATR symbol cfg.EntryTF cfg.ATRPeriod → 0 < cfg.ATRMult →
          h.SYMBOL_ASK symbol - h.iATR symbol cfg.EntryTF cfg.ATRPeriod * cfg.ATRMult <
            h.SYMBOL_ASK symbol)) ∧
    ((¬ (GetTrend h cfg symbol cfg.HighTF1 = true ∧ GetTrend h cfg symbol cfg.HighTF2 = true) ∧
        DetectOB h cfg symbol = Except.ok ENUM_OB_TYPE.BEAROB ∧
        h.iRSI symbol cfg.EntryTF cfg.RSIPeriod > cfg.RSIOverbought ∧
        CheckFVG h cfg symbol false = Except.ok true ∧ CheckMSS h cfg symbol false = true ∧
        ExecuteTrade.price h symbol ENUM_ORDER_TYPE.ORDER_TYPE_SELL ≠
          ExecuteTrade.sl h cfg symbol ENUM_ORDER_TYPE.ORDER_TYPE_SELL) →
      ∃ lot : ℚ,
        (OnTick h cfg s).orders.filter (fun r => decide (r.symbol = symbol)) =
          [{ symbol := symbol, type := ENUM_ORDER_TYPE.ORDER_TYPE_SELL, volume := lot,
             price := h.SYMBOL_BID symbol,
             sl := h.SYMBOL_BID symbol + h.iATR symbol cfg.EntryTF cfg.ATRPeriod * cfg.ATRMult }] ∧
        (0 < h.iATR symbol cfg.EntryTF cfg.ATRPeriod → 0 < cfg.ATRMult →
          h.SYMBOL_BID symbol <
            h.SYMBOL_BID symbol + h.iATR symbol cfg.EntryTF cfg.ATRPeriod * cfg.ATRMult)) := by
  constructor
  · rintro ⟨ht1, ht2, hob, hrsi, hfvg, hmss, hdist⟩
    have hentry : CheckEntry h cfg symbol true = Except.ok true := by
      simp [CheckEntry, hfvg, hrsi, hmss]
    have hpath := OnTick_path_buy h cfg symbol (by simp [ht1, ht2]) hob hentry
    obtain ⟨lot, hlot⟩ := ExecuteTrade_lot_of_distance h cfg h.ACCOUNT_EQUITY symbol
      ENUM_ORDER_TYPE.ORDER_TYPE_BUY hpoint hdist htick
    refine ⟨lot, ?_, ?_⟩
    · have hfilter := OnTick_filter_of_path h cfg s symbol pre post _ _ lot hsym hbar hcool
        hreach hpath hlot
      simpa [ExecuteTrade.price, ExecuteTrade.sl, ExecuteTrade.atr] using hfilter
    · intro ha hm
      have hprod : 0 < h.iATR symbol cfg.EntryTF cfg.ATRPeriod * cfg.ATRMult := mul_pos ha hm
      linarith
  · rintro ⟨htrend, hob, hrsi, hfvg, hmss, hdist⟩
    have hentry : CheckEntry h cfg symbol false = Except.ok true := by
      simp [CheckEntry, hfvg, hrsi, hmss]
    have hdown : (GetTrend h cfg symbol cfg.HighTF1 && GetTrend h cfg symbol cfg.HighTF2) =
        false := by
      cases h1 : GetTrend h cfg symbol cfg.HighTF1 <;>
        cases h2 : GetTrend h cfg symbol cfg.HighTF2 <;> simp_all
    have hpath := OnTick_path_sell h cfg symbol hdown hob hentry
    obtain ⟨lot, hlot⟩ := ExecuteTrade_lot_of_distance h cfg h.ACCOUNT_EQUITY symbol
      ENUM_ORDER_TYPE.ORDER_TYPE_SELL hpoint hdist htick
    refine ⟨lot, ?_, ?_⟩
    · have hfilter := OnTick_filter_of_path h cfg s symbol pre post _ _ lot hsym hbar hcool
        hreach hpath hlot
      simpa [ExecuteTrade.price, ExecuteTrade.sl, ExecuteTrade.atr] using hfilter
    · intro ha hm
      have hprod : 0 < h.iATR symbol cfg.EntryTF cfg.ATRPeriod * cfg.ATRMult := mul_pos ha hm
      linarith

/-- C9, amended, on `demoHost` for the second symbol: one buy at the ask 1.2 with
the stop at 1.198. -/
theorem OnTick_qualifying_intent_witness :
    ∃ lot : ℚ,
      (OnTick demoHost {} Session.init).orders.filter (fun r => decide (r.symbol = "EURUSD")) =
        [{ symbol := "EURUSD", type := ENUM_ORDER_TYPE.ORDER_TYPE_BUY, volume := lot,
           price := 12 / 10, sl := 1198 / 1000 }] :=
  ((OnTick_qualifying_intent demoHost {} Session.init "EURUSD" ["XAUUSD"] [] (by decide!)
      (by decide!) (by decide!) (by decide!) (by decide!) (by decide!)).1
    ⟨by decide!, by decide!, by decide!, by decide!, by decide!, by decide!, by decide!⟩).imp
    (fun _ hl => hl.1.trans (by norm_num [demoHost]))

/-! ## The cool-down over a run -/

/-- C10 as stated fails: the broker rejects the orders of a first cycle, so
`lastTradeTime` stays put, and a cycle on the next bar, 300 seconds later, submits
orders for the same symbols again. -/
theorem second_intent_after_rejection :
    rejectHost.TimeCurrent ≤ rejectHostLater.TimeCurrent ∧
    (trace {} [Event.tick rejectHost, Event.tick rejectHostLater] Session.init).map
        (fun i => (i.time, i.request.symbol, i.accepted)) =
      [(100000, "XAUUSD", false), (100000, "EURUSD", false),
       (100300, "XAUUSD", false), (100300, "EURUSD", false)] ∧
    ¬ (trace {} [Event.tick rejectHost, Event.tick rejectHostLater] Session.init).Pairwise
        (fun a b => a.request.symbol = b.request.symbol → 2880 ≤ b.time - a.time) := by
  decide!

/-- Within the loop of `OnTick`, once an accepted order has been submitted
`lastTradeTime` is the current time. -/
theorem OnTick_loop_accepted (h : Host) (cfg : Inputs) (syms : List String) (o : Outcome)
    (ho : ∀ r ∈ o.orders, h.accepts r = true → o.session.lastTradeTime = h.TimeCurrent) :
    ∀ r ∈ (OnTick.loop h cfg syms o).orders, h.accepts r = true →
      (OnTick.loop h cfg syms o).session.lastTradeTime = h.TimeCurrent := by
  refine OnTick_loop_preserve h cfg
    (fun x => ∀ r ∈ x.orders, h.accepts r = true → x.session.lastTradeTime = h.TimeCurrent)
    (fun _ _ hx => hx) ?_ syms o ho
  intro symbol type obType x hx
  rcases ExecuteTrade_cases h cfg symbol type obType x with
    ⟨f, he⟩ | ⟨lot, _, he⟩ | ⟨lot, hrej, he⟩
  · rw [he]
    exact hx
  · rw [he]
    intro _ _ _
    rfl
  · rw [he]
    intro r hr hacc
    rcases List.mem_append.mp hr with hold | hnew
    · exact hx r hold hacc
    · have hreq : r = ExecuteTrade.request h cfg symbol type lot := by simpa using hnew
      rw [hreq] at hacc
      have hrej' : h.accepts (ExecuteTrade.request h cfg symbol type lot) = false := hrej
      rw [hrej'] at hacc
      cases hacc

/-- The loop of `OnTick` leaves `lastTradeTime` alone or sets it to the current time. -/
theorem OnTick_loop_lastTradeTime (h : Host) (cfg : Inputs) (syms : List String) (o : Outcome) :
    (OnTick.loop h cfg syms o).session.lastTradeTime = o.session.lastTradeTime ∨
    (OnTick.loop h cfg syms o).session.lastTradeTime = h.TimeCurrent := by
  refine OnTick_loop_preserve h cfg
    (fun x => x.session.lastTradeTime = o.session.lastTradeTime ∨
      x.session.lastTradeTime = h.TimeCurrent)
    (fun _ _ hx => hx) ?_ syms o (Or.inl rfl)
  intro symbol type obType x hx
  rcases ExecuteTrade_cases h cfg symbol type obType x with
    ⟨f, he⟩ | ⟨lot, _, he⟩ | ⟨lot, _, he⟩
  · rw [he]
    exact hx
  · rw [he]
    exact Or.inr rfl
  · rw [he]
    exact hx

/-- The gate of `OnTick` is open or closed. -/
theorem OnTick_gate (h : Host) (s : Session) :
    ((IsNewBar h s).1 = true ∧ ¬ h.TimeCurrent - s.lastTradeTime < 2880) ∨
    ((IsNewBar h s).1 = false ∨ h.TimeCurrent - s.lastTradeTime < 2880) := by
  by_cases hcool : h.TimeCurrent - s.lastTradeTime < 2880
  · exact Or.inr (Or.inr hcool)
  · cases hbar : (IsNewBar h s).1
    · exact Or.inr (Or.inl rfl)
    · exact Or.inl ⟨rfl, hcool⟩

/-- A handler leaves `lastTradeTime` alone or sets it to the time of its event. -/
theorem handle_lastTradeTime (cfg : Inputs) (e : Event) (s : Session) :
    (handle cfg e s).session.lastTradeTime = s.lastTradeTime ∨
    (handle cfg e s).session.lastTradeTime = e.host.TimeCurrent := by
  cases e with
  | tick h =>
    show (OnTick h cfg s).session.lastTradeTime = s.lastTradeTime ∨
      (OnTick h cfg s).session.lastTradeTime = h.TimeCurrent
    rcases OnTick_gate h s with ⟨hbar, hcool⟩ | hclosed
    · rw [OnTick_open h cfg s hbar hcool]
      have hstart : (OnTick.start h s).session.lastTradeTime = s.lastTradeTime :=
        IsNewBar_lastTradeTime h s
      rw [← hstart]
      exact OnTick_loop_lastTradeTime h cfg symbols (OnTick.start h s)
    · rw [OnTick_closed h cfg s hclosed]
      exact Or.inl (IsNewBar_lastTradeTime h s)
  | timer h =>
    left
    show (OnTimer h s).lastTradeTime = s.lastTradeTime
    unfold OnTimer
    split <;> rfl

/-- A handler submits orders only when the cool-down has elapsed. -/
theorem handle_gate (cfg : Inputs) (e : Event) (s : Session) (r : TradeRequest)
    (hr : r ∈ (handle cfg e s).orders) : s.lastTradeTime + 2880 ≤ e.host.TimeCurrent := by
  cases e with
  | tick h =>
    have hr' : r ∈ (OnTick h cfg s).orders := hr
    show s.lastTradeTime + 2880 ≤ h.TimeCurrent
    rcases OnTick_gate h s with ⟨_, hcool⟩ | hclosed
    · omega
    · rw [OnTick_closed h cfg s hclosed] at hr'
      cases hr'
  | timer h => cases hr

/-- After a handler that submitted an accepted order, `lastTradeTime` is the time
of its event. -/
theorem handle_accepted (cfg : Inputs) (e : Event) (s : Session) (r : TradeRequest)
    (hr : r ∈ (handle cfg e s).orders) (hacc : e.host.accepts r = true) :
    (handle cfg e s).session.lastTradeTime = e.host.TimeCurrent := by
  cases e with
  | tick h =>
    have hr' : r ∈ (OnTick h cfg s).orders := hr
    show (OnTick h cfg s).session.lastTradeTime = h.TimeCurrent
    rcases OnTick_gate h s with ⟨hbar, hcool⟩ | hclosed
    · rw [OnTick_open h cfg s hbar hcool] at hr' ⊢
      exact OnTick_loop_accepted h cfg symbols (OnTick.start h s)
        (fun _ hmem _ => by cases hmem) r hr' hacc
    · rw [OnTick_closed h cfg s hclosed] at hr'
      cases hr'
  | timer h => cases hr

/-- A handler submits at most one order per symbol. -/
theorem handle_symbols (cfg : Inputs) (e : Event) (s : Session) :
    (handle cfg e s).orders.Pairwise (fun a b => a.symbol ≠ b.symbol) := by
  cases e with
  | tick h =>
    show (OnTick h cfg s).orders.Pairwise (fun a b => a.symbol ≠ b.symbol)
    rcases OnTick_gate h s with ⟨hbar, hcool⟩ | hclosed
    · rw [OnTick_open h cfg s hbar hcool]
      obtain ⟨new, hnew, hsub⟩ := OnTick_loop_orders h cfg symbols (OnTick.start h s)
      have hstart : (OnTick.start h s).orders = [] := rfl
      rw [hnew, hstart, List.nil_append]
      have hnodup : (new.map TradeRequest.symbol).Nodup := symbols_nodup.sublist hsub
      exact List.pairwise_map.mp hnodup
    · rw [OnTick_closed h cfg s hclosed]
      exact List.Pairwise.nil
  | timer h => exact List.Pairwise.nil

/-- In a run with a non-decreasing clock that starts no earlier than
`lastTradeTime`, every order is submitted at least 2880 seconds after
`lastTradeTime`. -/
theorem trace_after (cfg : Inputs) (es : List Event) (s : Session)
    (hclock : es.Pairwise (fun a b => a.host.TimeCurrent ≤ b.host.TimeCurrent))
    (hnow : ∀ e ∈ es, s.lastTradeTime ≤ e.host.TimeCurrent) :
    ∀ b ∈ trace cfg es s, s.lastTradeTime + 2880 ≤ b.time := by
  induction es generalizing s with
  | nil =>
    intro b hb
    cases hb
  | cons e es ih =>
    intro b hb
    obtain ⟨hhead, htail⟩ := List.pairwise_cons.mp hclock
    have he : s.lastTradeTime ≤ e.host.TimeCurrent := hnow e (List.mem_cons_self _ _)
    simp only [trace] at hb
    rcases List.mem_append.mp hb with hfirst | hrest
    · obtain ⟨r, hr, hbr⟩ := List.mem_map.mp hfirst
      rw [← hbr]
      exact handle_gate cfg e s r hr
    · cases hf : (handle cfg e s).fault with
      | some f =>
        rw [hf] at hrest
        cases hrest
      | none =>
        rw [hf] at hrest
        have hnext : ∀ e' ∈ es, (handle cfg e s).session.lastTradeTime ≤
            e'.host.TimeCurrent := by
          intro e' he'
          rcases handle_lastTradeTime cfg e s with hsame | hset
          · rw [hsame]
            exact hnow e' (List.mem_cons_of_mem _ he')
          · rw [hset]
            exact hhead e' he'
        have hb' := ih (handle cfg e s).session htail hnext b hrest
        rcases handle_lastTradeTime cfg e s with hsame | hset
        · rw [hsame] at hb'
          exact hb'
        · rw [hset] at hb'
          omega

/-- C10, amended. In every run with a non-decreasing clock, once an order for a
symbol has been accepted at time `t`, no second order is submitted for the same
symbol at any later point of the run with time `t'` and `t' - t < 2880`. -/
theorem trace_cooldown (cfg : Inputs) (es : List Event) (s : Session)
    (hclock : es.Pairwise (fun a b => a.host.TimeCurrent ≤ b.host.TimeCurrent)) :
    (trace cfg es s).Pairwise
      (fun a b => a.accepted = true → a.request.symbol = b.request.symbol →
        2880 ≤ b.time - a.time) := by
  induction es generalizing s with
  | nil => exact List.Pairwise.nil
  | cons e es ih =>
    obtain ⟨hhead, htail⟩ := List.pairwise_cons.mp hclock
    simp only [trace]
    refine List.pairwise_append.mpr ⟨?_, ?_, ?_⟩
    · -- two orders of one cycle are for different symbols
      unfold intents
      refine List.pairwise_map.mpr ((handle_symbols cfg e s).imp ?_)
      intro a b hne _ heq
      exact absurd heq hne
    · cases hf : (handle cfg e s).fault with
      | some f => exact List.Pairwise.nil
      | none => exact ih (handle cfg e s).session htail
    · intro a ha b hb hacc _
      obtain ⟨r, hr, har⟩ := List.mem_map.mp ha
      have htime : a.time = e.host.TimeCurrent := by rw [← har]
      have hacc' : e.host.accepts r = true := by
        rw [← har] at hacc
        exact hacc
      have hlast := handle_accepted cfg e s r hr hacc'
      cases hf : (handle cfg e s).fault with
      | some f =>
        rw [hf] at hb
        cases hb
      | none =>
        rw [hf] at hb
        have hafter := trace_after cfg es (handle cfg e s).session htail
          (fun e' he' => by rw [hlast]; exact hhead e' he') b hb
        rw [hlast] at hafter
        omega

/-- C10, amended, on a run of two cycles five minutes apart on an accepting
terminal: the orders of the first cycle are accepted and the second cycle submits
nothing. -/
theorem trace_cooldown_witness :
    (trace {} [Event.tick demoHost, Event.tick demoHostLater] Session.init).map
        (fun i => (i.time, i.request.symbol, i.accepted)) =
      [(100000, "XAUUSD", true), (100000, "EURUSD", true)] ∧
    (trace {} [Event.tick demoHost, Event.tick demoHostLater] Session.init).Pairwise
      (fun a b => a.accepted = true → a.request.symbol = b.request.symbol →
        2880 ≤ b.time - a.time) :=
  ⟨by decide!,
    trace_cooldown {} [Event.tick demoHost, Event.tick demoHostLater] Session.init
      (by decide!)⟩

/-! ## The daily counter -/

/-- C11 fails on the code.  `OnTick` does not depend on `MaxTradesPerDay` at all, and
with the inputs of the source sixteen decision cycles of one day, 2880 seconds
apart, on a terminal where both symbols qualify and the broker accepts every
order, leave `tradeCountToday` at 32, above the cap of 30. -/
theorem cap_not_enforced :
    (∀ (h : Host) (cfg : Inputs) (s : Session) (cap : Int),
      OnTick h { cfg with MaxTradesPerDay := cap } s = OnTick h cfg s) ∧
    ({} : Inputs).MaxTradesPerDay = 30 ∧
    (finalSession {} ((List.range 16).map fun k => Event.tick (demoHostAt k))
      Session.init).tradeCountToday = 32 := by
  refine ⟨fun h cfg s cap => rfl, by decide!, by decide!⟩

/-- A value inside the 32-bit range is not changed by the wrap. -/
theorem wrapInt32_of_range (n : Int) (hlo : -2147483648 ≤ n) (hhi : n ≤ 2147483647) :
    wrapInt32 n = n := by
  unfold wrapInt32
  omega

/-- At the largest 32-bit value the increment wraps around to the smallest. -/
theorem wrapInt32_max : wrapInt32 (2147483647 + 1) = -2147483648 := by
  decide

/-- C12. When `ExecuteTrade` has handed the order `r` to `trade.PositionOpen`: if
the broker accepts it, `tradeCountToday` is the 32-bit increment of its old value,
which is the old value plus exactly 1 whenever the old value is below 2147483647,
`lastTradeTime` is the current time and one record has been logged; if the
broker rejects it, the globals and the log are as before. -/
theorem ExecuteTrade_accept_reject (h : Host) (cfg : Inputs) (symbol : String)
    (type : ENUM_ORDER_TYPE) (obType : ENUM_OB_TYPE) (o : Outcome) (r : TradeRequest)
    (hr : (ExecuteTrade h cfg symbol type obType o).orders = o.orders ++ [r]) :
    (h.accepts r = true →
      (ExecuteTrade h cfg symbol type obType o).session.tradeCountToday =
        wrapInt32 (o.session.tradeCountToday + 1) ∧
      (-2147483648 ≤ o.session.tradeCountToday → o.session.tradeCountToday < 2147483647 →
        (ExecuteTrade h cfg symbol type obType o).session.tradeCountToday =
          o.session.tradeCountToday + 1) ∧
      (ExecuteTrade h cfg symbol type obType o).session.lastTradeTime = h.TimeCurrent ∧
      (∃ record : LogRecord,
        (ExecuteTrade h cfg symbol type obType o).logs = o.logs ++ [record])) ∧
    (h.accepts r = false →
      (ExecuteTrade h cfg symbol type obType o).session = o.session ∧
      (ExecuteTrade h cfg symbol type obType o).logs = o.logs) := by
  rcases ExecuteTrade_cases h cfg symbol type obType o with
    ⟨f, he⟩ | ⟨lot, hacc, he⟩ | ⟨lot, hrej, he⟩
  · rw [he] at hr
    simp at hr
  · rw [he] at hr ⊢
    have hreq : r = ExecuteTrade.request h cfg symbol type lot := by simpa using hr.symm
    have hacc' : h.accepts r = true := by rw [hreq]; exact hacc
    constructor
    · intro _
      refine ⟨rfl, fun hlo hhi => ?_, rfl, _, rfl⟩
      show wrapInt32 (o.session.tradeCountToday + 1) = o.session.tradeCountToday + 1
      exact wrapInt32_of_range _ (by omega) (by omega)
    · intro hno
      rw [hacc'] at hno
      cases hno
  · rw [he] at hr ⊢
    have hreq : r = ExecuteTrade.request h cfg symbol type lot := by simpa using hr.symm
    have hrej' : h.accepts r = false := by rw [hreq]; exact hrej
    constructor
    · intro hyes
      rw [hrej'] at hyes
      cases hyes
    · intro _
      exact ⟨rfl, rfl⟩

/-- C12 on `demoHost` (the order is accepted: the counter goes from 0 to 1, the
last trade time is 100000) and on `rejectHost` (the order is rejected: the globals
and the log are as before). -/
theorem ExecuteTrade_accept_reject_witness :
    ((ExecuteTrade demoHost {} "EURUSD" ENUM_ORDER_TYPE.ORDER_TYPE_BUY ENUM_OB_TYPE.BOB
        demoStart).session.tradeCountToday = demoStart.session.tradeCountToday + 1 ∧
      (ExecuteTrade demoHost {} "EURUSD" ENUM_ORDER_TYPE.ORDER_TYPE_BUY ENUM_OB_TYPE.BOB
        demoStart).session.lastTradeTime = demoHost.TimeCurrent) ∧
    ((ExecuteTrade rejectHost {} "EURUSD" ENUM_ORDER_TYPE.ORDER_TYPE_BUY ENUM_OB_TYPE.BOB
        demoStart).session = demoStart.session ∧
      (ExecuteTrade rejectHost {} "EURUSD" ENUM_ORDER_TYPE.ORDER_TYPE_BUY ENUM_OB_TYPE.BOB
        demoStart).logs = demoStart.logs) :=
  ⟨⟨((ExecuteTrade_accept_reject demoHost {} "EURUSD" ENUM_ORDER_TYPE.ORDER_TYPE_BUY
        ENUM_OB_TYPE.BOB demoStart
        { symbol := "EURUSD", type := ENUM_ORDER_TYPE.ORDER_TYPE_BUY, volume := 1 / 2,
          price := 12 / 10, sl := 1198 / 1000 } (by decide!)).1 (by decide!)).2.1
        (by decide) (by decide),
     ((ExecuteTrade_accept_reject demoHost {} "EURUSD" ENUM_ORDER_TYPE.ORDER_TYPE_BUY
        ENUM_OB_TYPE.BOB demoStart
        { symbol := "EURUSD", type := ENUM_ORDER_TYPE.ORDER_TYPE_BUY, volume := 1 / 2,
          price := 12 / 10, sl := 1198 / 1000 } (by decide!)).1 (by decide!)).2.2.1⟩,
   (ExecuteTrade_accept_reject rejectHost {} "EURUSD" ENUM_ORDER_TYPE.ORDER_TYPE_BUY
      ENUM_OB_TYPE.BOB demoStart
      { symbol := "EURUSD", type := ENUM_ORDER_TYPE.ORDER_TYPE_BUY, volume := 1 / 2,
        price := 12 / 10, sl := 1198 / 1000 } (by decide!)).2 (by decide!)⟩

/-! ## The retracement level -/

/-- A successful array read returns a bar of the array. -/
theorem index_mem (rates : List MqlRates) (i : Int) (r : MqlRates)
    (hr : index rates i = Except.ok r) : r ∈ rates := by
  unfold index at hr
  split at hr
  · cases hr
  · split at hr
    · rename_i r' hget
      simp only [Except.ok.injEq] at hr
      rw [← hr]
      exact List.get?_mem hget
    · cases hr

/-- The highest high of a non-empty window is the high of one of its bars. -/
theorem windowHigh_mem (rates : List MqlRates) (hne : rates ≠ []) :
    ∃ b ∈ rates, windowHigh rates = b.high := by
  induction rates with
  | nil => exact absurd rfl hne
  | cons b bs ih =>
    cases bs with
    | nil => exact ⟨b, List.mem_cons_self _ _, rfl⟩
    | cons c rest =>
      obtain ⟨m, hm, hmax⟩ := ih (List.cons_ne_nil _ _)
      rcases le_total b.high (windowHigh (c :: rest)) with hle | hle
      · exact ⟨m, List.mem_cons_of_mem _ hm, by
          show max b.high (windowHigh (c :: rest)) = m.high
          rw [max_eq_right hle, hmax]⟩
      · exact ⟨b, List.mem_cons_self _ _, by
          show max b.high (windowHigh (c :: rest)) = b.high
          exact max_eq_left hle⟩

/-- No bar of a window has a high above the highest high. -/
theorem windowHigh_ge (rates : List MqlRates) : ∀ b ∈ rates, b.high ≤ windowHigh rates := by
  induction rates with
  | nil =>
    intro b hb
    cases hb
  | cons a bs ih =>
    intro b hb
    cases bs with
    | nil =>
      have hba : b = a := by simpa using hb
      rw [hba]
      exact le_refl _
    | cons c rest =>
      show b.high ≤ max a.high (windowHigh (c :: rest))
      rcases List.mem_cons.mp hb with hba | hmem
      · rw [hba]
        exact le_max_left _ _
      · exact le_trans (ih b hmem) (le_max_right _ _)

/-- The lowest low of a non-empty window is the low of one of its bars. -/
theorem windowLow_mem (rates : List MqlRates) (hne : rates ≠ []) :
    ∃ b ∈ rates, windowLow rates = b.low := by
  induction rates with
  | nil => exact absurd rfl hne
  | cons b bs ih =>
    cases bs with
    | nil => exact ⟨b, List.mem_cons_self _ _, rfl⟩
    | cons c rest =>
      obtain ⟨m, hm, hmin⟩ := ih (List.cons_ne_nil _ _)
      rcases le_total b.low (windowLow (c :: rest)) with hle | hle
      · exact ⟨b, List.mem_cons_self _ _, by
          show min b.low (windowLow (c :: rest)) = b.low
          exact min_eq_left hle⟩
      · exact ⟨m, List.mem_cons_of_mem _ hm, by
          show min b.low (windowLow (c :: rest)) = m.low
          rw [min_eq_right hle, hmin]⟩

/-- No bar of a window has a low below the lowest low. -/
theorem windowLow_le (rates : List MqlRates) : ∀ b ∈ rates, windowLow rates ≤ b.low := by
  induction rates with
  | nil =>
    intro b hb
    cases hb
  | cons a bs ih =>
    intro b hb
    cases bs with
    | nil =>
      have hba : b = a := by simpa using hb
      rw [hba]
      exact le_refl _
    | cons c rest =>
      show min a.low (windowLow (c :: rest)) ≤ b.low
      rcases List.mem_cons.mp hb with hba | hmem
      · rw [hba]
        exact min_le_left _ _
      · exact le_trans (min_le_right _ _) (ih b hmem)

/-- A bar of the window whose high no bar exceeds has the highest high. -/
theorem windowHigh_eq_of_max (rates : List MqlRates) (r : MqlRates) (hr : r ∈ rates)
    (hmax : ∀ b ∈ rates, b.high ≤ r.high) : windowHigh rates = r.high := by
  obtain ⟨m, hm, heq⟩ := windowHigh_mem rates (List.ne_nil_of_mem hr)
  exact le_antisymm (heq ▸ hmax m hm) (windowHigh_ge rates r hr)

/-- A bar of the window whose low no bar undercuts has the lowest low. -/
theorem windowLow_eq_of_min (rates : List MqlRates) (r : MqlRates) (hr : r ∈ rates)
    (hmin : ∀ b ∈ rates, r.low ≤ b.low) : windowLow rates = r.low := by
  obtain ⟨m, hm, heq⟩ := windowLow_mem rates (List.ne_nil_of_mem hr)
  exact le_antisymm (windowLow_le rates r hr) (heq ▸ hmin m hm)

/-- The highest high does not depend on the order of the bars. -/
theorem windowHigh_perm (rates rates' : List MqlRates) (hperm : rates.Perm rates') :
    windowHigh rates' = windowHigh rates := by
  cases rates with
  | nil => rw [List.Perm.nil_eq hperm]
  | cons a l =>
    obtain ⟨m, hm, heq⟩ := windowHigh_mem (a :: l) (List.cons_ne_nil _ _)
    rw [heq]
    exact windowHigh_eq_of_max rates' m (hperm.mem_iff.mp hm)
      (fun b hb => heq ▸ windowHigh_ge (a :: l) b (hperm.mem_iff.mpr hb))

/-- The lowest low does not depend on the order of the bars. -/
theorem windowLow_perm (rates rates' : List MqlRates) (hperm : rates.Perm rates') :
    windowLow rates' = windowLow rates := by
  cases rates with
  | nil => rw [List.Perm.nil_eq hperm]
  | cons a l =>
    obtain ⟨m, hm, heq⟩ := windowLow_mem (a :: l) (List.cons_ne_nil _ _)
    rw [heq]
    exact windowLow_eq_of_min rates' m (hperm.mem_iff.mp hm)
      (fun b hb => heq ▸ windowLow_le (a :: l) b (hperm.mem_iff.mpr hb))

/-- The result of `CalculateFib` in terms of the two bars it reads. -/
theorem CalculateFib_of_index (h : Host) (rates : List MqlRates) (level : ℚ)
    (rmax rmin : MqlRates)
    (hmax : index rates (h.ArrayMaximum rates) = Except.ok rmax)
    (hmin : index rates (h.ArrayMinimum rates) = Except.ok rmin) :
    CalculateFib h rates level =
      Except.ok (rmax.high - ((rmax.high - rmin.low) * (level / 100))) := by
  simp only [CalculateFib, hmax, hmin]

/-- A read at a position below the length returns the bar at that position. -/
theorem index_natCast (rates : List MqlRates) (n : ℕ) (hn : n < rates.length) :
    index rates (n : Int) = Except.ok (rates.get ⟨n, hn⟩) := by
  unfold index
  rw [if_neg (not_lt.mpr (Int.natCast_nonneg n)), Int.toNat_natCast, List.get?_eq_get hn]

/-- On every non-empty window `argMaxHigh` and `argMinLow` select a bar with the
highest high and a bar with the lowest low. -/
theorem selectsExtremes_of_arg (h : Host) (hmax : h.ArrayMaximum = argMaxHigh)
    (hmin : h.ArrayMinimum = argMinLow) (rates : List MqlRates) (hne : rates ≠ []) :
    h.selectsExtremes rates := by
  unfold Host.selectsExtremes
  rw [hmax, hmin]
  constructor
  · obtain ⟨m, hm, heq⟩ := windowHigh_mem rates hne
    have hlt : rates.findIdx (fun b => decide (b.high = windowHigh rates)) < rates.length :=
      List.findIdx_lt_length_of_exists ⟨m, hm, by simp [heq]⟩
    refine ⟨rates.get ⟨_, hlt⟩, ?_, ?_⟩
    · unfold argMaxHigh
      rw [if_neg hne]
      exact index_natCast rates _ hlt
    · intro b hb
      have hp : decide ((rates.get ⟨_, hlt⟩).high = windowHigh rates) = true :=
        @List.findIdx_getElem MqlRates (fun b => decide (b.high = windowHigh rates)) rates hlt
      rw [of_decide_eq_true hp]
      exact windowHigh_ge rates b hb
  · obtain ⟨m, hm, heq⟩ := windowLow_mem rates hne
    have hlt : rates.findIdx (fun b => decide (b.low = windowLow rates)) < rates.length :=
      List.findIdx_lt_length_of_exists ⟨m, hm, by simp [heq]⟩
    refine ⟨rates.get ⟨_, hlt⟩, ?_, ?_⟩
    · unfold argMinLow
      rw [if_neg hne]
      exact index_natCast rates _ hlt
    · intro b hb
      have hp : decide ((rates.get ⟨_, hlt⟩).low = windowLow rates) = true :=
        @List.findIdx_getElem MqlRates (fun b => decide (b.low = windowLow rates)) rates hlt
      rw [of_decide_eq_true hp]
      exact windowLow_le rates b hb

/-- C13. On every window on which `ArrayMaximum` and `ArrayMinimum` select a bar
with the highest high and a bar with the lowest low (such a window is not empty),
and for every level, `CalculateFib` returns `high - (high - low) * level / 100` with
`high` the maximum of the highs and `low` the minimum of the lows of all bars. -/
theorem CalculateFib_eq_retracementLevel (h : Host) (rates : List MqlRates) (level : ℚ)
    (hsel : h.selectsExtremes rates) :
    CalculateFib h rates level = Except.ok (retracementLevel rates level) ∧
    (∀ b ∈ rates, b.high ≤ windowHigh rates ∧ windowLow rates ≤ b.low) ∧
    (∃ b ∈ rates, windowHigh rates = b.high) ∧ (∃ b ∈ rates, windowLow rates = b.low) := by
  obtain ⟨⟨rmax, hmax, hhigh⟩, ⟨rmin, hmin, hlow⟩⟩ := hsel
  have hmem : rmax ∈ rates := index_mem rates _ rmax hmax
  have hne : rates ≠ [] := List.ne_nil_of_mem hmem
  refine ⟨?_, fun b hb => ⟨windowHigh_ge rates b hb, windowLow_le rates b hb⟩,
    windowHigh_mem rates hne, windowLow_mem rates hne⟩
  rw [CalculateFib_of_index h rates level rmax rmin hmax hmin]
  unfold retracementLevel
  rw [windowHigh_eq_of_max rates rmax hmem hhigh,
    windowLow_eq_of_min rates rmin (index_mem rates _ rmin hmin) hlow, mul_div_assoc]

/-- C13 on the window of `demoHost` at the level 50: the highest high is 1.13,
the lowest low 1.08, the level 1.105. -/
theorem CalculateFib_eq_retracementLevel_witness :
    CalculateFib demoHost demoWindow 50 = Except.ok (221 / 200) :=
  ((CalculateFib_eq_retracementLevel demoHost demoWindow 50
    ⟨⟨demoNewest, by decide!, by decide!⟩, ⟨demoNewest, by decide!, by decide!⟩⟩).1).trans
    (by decide!)

/-- C14. `CalculateFib` does not depend on the order of the bars: on a window and
on any permutation of it, both with `ArrayMaximum` and `ArrayMinimum` selecting a bar
with the highest high and a bar with the lowest low, it returns the same level. -/
theorem CalculateFib_perm (h : Host) (rates rates' : List MqlRates) (level : ℚ)
    (hperm : rates.Perm rates')
    (hsel : h.selectsExtremes rates) (hsel' : h.selectsExtremes rates') :
    CalculateFib h rates' level = CalculateFib h rates level := by
  obtain ⟨⟨rmax, hmax, hhigh⟩, ⟨rmin, hmin, hlow⟩⟩ := hsel
  obtain ⟨⟨rmax', hmax', hhigh'⟩, ⟨rmin', hmin', hlow'⟩⟩ := hsel'
  rw [CalculateFib_of_index h rates level rmax rmin hmax hmin,
    CalculateFib_of_index h rates' level rmax' rmin' hmax' hmin']
  have h1 : rmax'.high = rmax.high := by
    rw [← windowHigh_eq_of_max rates' rmax' (index_mem rates' _ rmax' hmax') hhigh',
      ← windowHigh_eq_of_max rates rmax (index_mem rates _ rmax hmax) hhigh]
    exact windowHigh_perm rates rates' hperm
  have h2 : rmin'.low = rmin.low := by
    rw [← windowLow_eq_of_min rates' rmin' (index_mem rates' _ rmin' hmin') hlow',
      ← windowLow_eq_of_min rates rmin (index_mem rates _ rmin hmin) hlow]
    exact windowLow_perm rates rates' hperm
  rw [h1, h2]

/-- C14 on `specHost`: the window of `demoHost` and the same two bars in the other
order give the same level. -/
theorem CalculateFib_perm_witness :
    CalculateFib specHost demoWindow.reverse 50 = CalculateFib specHost demoWindow 50 :=
  CalculateFib_perm specHost demoWindow demoWindow.reverse 50
    (List.reverse_perm demoWindow).symm
    ⟨⟨demoNewest, by decide!, by decide!⟩, ⟨demoNewest, by decide!, by decide!⟩⟩
    ⟨⟨demoNewest, by decide!, by decide!⟩, ⟨demoNewest, by decide!, by decide!⟩⟩

/-! ## Fair value gap and market structure shift -/

/-- C15. On a window whose first three bars are `newest`, `mid` and `oldest`
(positions 0, 1, 2), `CheckFVG` returns a value for both directions; for a long it
returns true exactly when `mid.low > newest.high` and `mid.low > oldest.high`, for a
short exactly when `mid.high < newest.low` and `mid.high < oldest.low`. -/
theorem CheckFVG_iff (h : Host) (cfg : Inputs) (symbol : String)
    (newest mid oldest : MqlRates) (rest : List MqlRates)
    (hwin : h.CopyRates symbol cfg.EntryTF 0 3 = newest :: mid :: oldest :: rest) :
    ((∃ b, CheckFVG h cfg symbol true = Except.ok b) ∧
      (∃ b, CheckFVG h cfg symbol false = Except.ok b)) ∧
    (CheckFVG h cfg symbol true = Except.ok true ↔
      (mid.low > newest.high ∧ mid.low > oldest.high)) ∧
    (CheckFVG h cfg symbol false = Except.ok true ↔
      (mid.high < newest.low ∧ mid.high < oldest.low)) := by
  simp only [CheckFVG, hwin, index]
  refine ⟨⟨?_, ?_⟩, ?_, ?_⟩
  · by_cases h1 : mid.low > newest.high <;> simp [h1]
  · by_cases h1 : mid.high < newest.low <;> simp [h1]
  · by_cases h1 : mid.low > newest.high <;> simp [h1]
  · by_cases h1 : mid.high < newest.low <;> simp [h1]

/-- C15 on the entry-timeframe window of `demoHost`: the middle bar's low of 1.2
is above the high of 1.1 of both neighbours, so there is a long gap. -/
theorem CheckFVG_iff_witness : CheckFVG demoHost {} "EURUSD" true = Except.ok true :=
  (CheckFVG_iff demoHost {} "EURUSD"
    { open_ := 1, high := 11 / 10, low := 1, close := 1, volume := 10 }
    { open_ := 12 / 10, high := 13 / 10, low := 12 / 10, close := 12 / 10, volume := 10 }
    { open_ := 1, high := 11 / 10, low := 1, close := 1, volume := 10 } []
    (by decide!)).2.1.mpr ⟨by decide!, by decide!⟩

/-- C19. On a window whose bars all have `low ≤ high`, `CheckFVG` does not return
true for a long and for a short at the same time. -/
theorem CheckFVG_exclusive (h : Host) (cfg : Inputs) (symbol : String)
    (hbars : ∀ b ∈ h.CopyRates symbol cfg.EntryTF 0 3, b.low ≤ b.high) :
    ¬ (CheckFVG h cfg symbol true = Except.ok true ∧
        CheckFVG h cfg symbol false = Except.ok true) := by
  rintro ⟨hlong, hshort⟩
  simp only [CheckFVG] at hlong hshort
  cases h1 : index (h.CopyRates symbol cfg.EntryTF 0 3) 1 with
  | error f => simp [h1] at hlong
  | ok r1 =>
    cases h0 : index (h.CopyRates symbol cfg.EntryTF 0 3) 0 with
    | error f => simp [h1, h0] at hlong
    | ok r0 =>
      simp only [h1, h0, if_true] at hlong
      simp only [h1, h0, Bool.false_eq_true, if_false] at hshort
      have hr1 := hbars r1 (index_mem _ _ r1 h1)
      have hr0 := hbars r0 (index_mem _ _ r0 h0)
      by_cases hgt : r1.low > r0.high
      · by_cases hlt : r1.high < r0.low
        · linarith
        · simp [hlt] at hshort
      · simp [hgt] at hlong

/-- C19 on the entry-timeframe window of `demoHost`, whose bars have `low ≤ high`:
there is a long gap and no short gap. -/
theorem CheckFVG_exclusive_witness :
    CheckFVG demoHost {} "EURUSD" true = Except.ok true ∧
    ¬ (CheckFVG demoHost {} "EURUSD" true = Except.ok true ∧
        CheckFVG demoHost {} "EURUSD" false = Except.ok true) :=
  ⟨by decide!, CheckFVG_exclusive demoHost {} "EURUSD" (by decide!)⟩

/-- C16 as stated fails: on `spikeHost` the entry-timeframe close of 1.5 is above
the high of 1 of each of the 50 bars before the current one, and `CheckMSS` still
denies the long shift, because `iHighest` starts at shift 0 and the current bar has
a high of 2. -/
theorem no_shift_above_prior_highs :
    spikeHost.findsExtremes "EURUSD" ENUM_TIMEFRAMES.PERIOD_H1 50 0 ∧
    (∀ i : Int, 1 ≤ i → i ≤ 50 →
      spikeHost.iHigh "EURUSD" ENUM_TIMEFRAMES.PERIOD_H1 i <
        spikeHost.iClose "EURUSD" ENUM_TIMEFRAMES.PERIOD_M5 0) ∧
    CheckMSS spikeHost {} "EURUSD" true = false := by
  refine ⟨⟨⟨by decide, by decide, fun i _ _ => ?_⟩, ⟨by decide, by decide, fun i _ _ => ?_⟩⟩,
    fun i h1 _ => ?_, by decide!⟩
  · show (if i = 0 then (2 : ℚ) else 1) ≤ if (0 : Int) = 0 then (2 : ℚ) else 1
    rw [if_pos rfl]
    split_ifs <;> norm_num
  · exact le_refl _
  · have hi : i ≠ 0 := by omega
    show (if i = 0 then (2 : ℚ) else 1) < 3 / 2
    rw [if_neg hi]
    norm_num

/-- C16, amended. With `iHighest` and `iLowest` returning the shift of the highest
high and of the lowest low among the 50 bars from shift 0 on, the current bar
included, `CheckMSS` grants the long shift exactly when the latest entry-timeframe
close is strictly above the high of every one of these bars, and the short shift
exactly when it is strictly below the low of every one of them. -/
theorem CheckMSS_iff (h : Host) (cfg : Inputs) (symbol : String)
    (hlib : h.findsExtremes symbol cfg.HighTF1 50 0) :
    (CheckMSS h cfg symbol true = true ↔
      ∀ i : Int, 0 ≤ i → i < 50 →
        h.iHigh symbol cfg.HighTF1 i < h.iClose symbol cfg.EntryTF 0) ∧
    (CheckMSS h cfg symbol false = true ↔
      ∀ i : Int, 0 ≤ i → i < 50 →
        h.iClose symbol cfg.EntryTF 0 < h.iLow symbol cfg.HighTF1 i) := by
  obtain ⟨⟨hhi0, hhi1, hhi⟩, ⟨hlo0, hlo1, hlo⟩⟩ := hlib
  constructor
  · simp only [CheckMSS, if_true, decide_eq_true_eq]
    constructor
    · intro hgt i hi0 hi1
      exact lt_of_le_of_lt (hhi i hi0 (by omega)) hgt
    · intro hall
      exact hall _ hhi0 (by omega)
  · simp only [CheckMSS, Bool.false_eq_true, if_false, decide_eq_true_eq]
    constructor
    · intro hlt i hi0 hi1
      exact lt_of_lt_of_le hlt (hlo i hi0 (by omega))
    · intro hall
      exact hall _ hlo0 (by omega)

/-- C16, amended, on `demoHost`: every high is 1.15 and the close is 1.2, so the
long shift holds. -/
theorem CheckMSS_iff_witness : CheckMSS demoHost {} "EURUSD" true = true :=
  (CheckMSS_iff demoHost {} "EURUSD"
    ⟨⟨by decide, by decide, fun _ _ _ => le_refl _⟩,
     ⟨by decide, by decide, fun _ _ _ => le_refl _⟩⟩).1.mpr
    (fun _ _ _ => by
      show (115 / 100 : ℚ) < 12 / 10
      norm_num)

/-! ## Order block detection on short and long windows -/

/-- The first condition of `DetectOB` on a window of at least two bars. -/
theorem bobCondition_two (cur prev : MqlRates) (rest : List MqlRates)
    (volumeMult fibLevel priceGap : ℚ) :
    bobCondition (cur :: prev :: rest) volumeMult fibLevel priceGap =
      Except.ok (decide (cur.close > cur.open_) &&
        decide (cur.volume > prev.volume * volumeMult) &&
        decide (MathAbs (cur.open_ - fibLevel) < priceGap)) := by
  simp only [bobCondition, index]
  by_cases h1 : cur.close > cur.open_ <;>
    by_cases h2 : cur.volume > prev.volume * volumeMult <;> simp [h1, h2]

/-- The second condition of `DetectOB` on a window of at least two bars. -/
theorem bearobCondition_two (cur prev : MqlRates) (rest : List MqlRates)
    (volumeMult fibLevel priceGap : ℚ) :
    bearobCondition (cur :: prev :: rest) volumeMult fibLevel priceGap =
      Except.ok (decide (cur.close < cur.open_) &&
        decide (cur.volume > prev.volume * volumeMult) &&
        decide (MathAbs (cur.open_ - fibLevel) < priceGap)) := by
  simp only [bearobCondition, index]
  by_cases h1 : cur.close < cur.open_ <;>
    by_cases h2 : cur.volume > prev.volume * volumeMult <;> simp [h1, h2]

/-- The two conditions of `DetectOB` are never both true. -/
theorem bob_bearob_exclusive (rates : List MqlRates) (volumeMult fibLevel priceGap : ℚ) :
    ¬ (bobCondition rates volumeMult fibLevel priceGap = Except.ok true ∧
        bearobCondition rates volumeMult fibLevel priceGap = Except.ok true) := by
  rintro ⟨hbob, hbear⟩
  unfold bobCondition at hbob
  unfold bearobCondition at hbear
  cases h0 : index rates 0 with
  | error f => simp [h0] at hbob
  | ok r0 =>
    simp only [h0] at hbob hbear
    by_cases hup : r0.close > r0.open_
    · have hdn : ¬ r0.close < r0.open_ := lt_asymm hup
      simp [hdn] at hbear
    · simp [hup] at hbob

/-- C17. On a window of at least two bars on which `CalculateFib` returns a level,
`DetectOB` returns exactly one of `BOB`, `BEAROB` and `WRONG_VALUE`, and its two
conditions are not both true. -/
theorem DetectOB_exclusive (h : Host) (cfg : Inputs) (symbol : String)
    (cur prev : MqlRates) (rest : List MqlRates) (fib : ℚ)
    (hwin : h.CopyRates symbol cfg.HighTF1 0 cfg.OB_Lookback = cur :: prev :: rest)
    (hfib : CalculateFib h (cur :: prev :: rest) cfg.FibLevel1 = Except.ok fib) :
    (∃! ob, DetectOB h cfg symbol = Except.ok ob) ∧
    (∃ bob bearob : Bool,
      bobCondition (cur :: prev :: rest) cfg.OB_VolumeMult fib (h.SYMBOL_POINT symbol * 50) =
        Except.ok bob ∧
      bearobCondition (cur :: prev :: rest) cfg.OB_VolumeMult fib
        (h.SYMBOL_POINT symbol * 50) = Except.ok bearob ∧
      ¬ (bob = true ∧ bearob = true) ∧
      (DetectOB h cfg symbol = Except.ok ENUM_OB_TYPE.BOB ↔ bob = true) ∧
      (DetectOB h cfg symbol = Except.ok ENUM_OB_TYPE.BEAROB ↔ bearob = true)) := by
  have hbob := bobCondition_two cur prev rest cfg.OB_VolumeMult fib (h.SYMBOL_POINT symbol * 50)
  have hbear := bearobCondition_two cur prev rest cfg.OB_VolumeMult fib
    (h.SYMBOL_POINT symbol * 50)
  have hex := bob_bearob_exclusive (cur :: prev :: rest) cfg.OB_VolumeMult fib
    (h.SYMBOL_POINT symbol * 50)
  rw [hbob, hbear] at hex
  have hval : DetectOB h cfg symbol = Except.ok
      (if (decide (cur.close > cur.open_) &&
            decide (cur.volume > prev.volume * cfg.OB_VolumeMult) &&
            decide (MathAbs (cur.open_ - fib) < h.SYMBOL_POINT symbol * 50)) = true
        then ENUM_OB_TYPE.BOB
        else if (decide (cur.close < cur.open_) &&
            decide (cur.volume > prev.volume * cfg.OB_VolumeMult) &&
            decide (MathAbs (cur.open_ - fib) < h.SYMBOL_POINT symbol * 50)) = true
        then ENUM_OB_TYPE.BEAROB
        else ENUM_OB_TYPE.WRONG_VALUE) := by
    simp only [DetectOB, DetectOB.classify, hwin, hfib, hbob, hbear]
    split_ifs <;> rfl
  refine ⟨⟨_, hval, fun y hy => ?_⟩, _, _, hbob, hbear, ?_, ?_, ?_⟩
  · rw [hval] at hy
    exact (Except.ok.inj hy).symm
  · intro hboth
    exact hex ⟨by rw [hboth.1], by rw [hboth.2]⟩
  · rw [hval]
    split_ifs with hb hbe <;> simp [hb]
  · rw [hval]
    split_ifs with hb hbe
    · have hne : ¬ (decide (cur.close < cur.open_) &&
          decide (cur.volume > prev.volume * cfg.OB_VolumeMult) &&
          decide (MathAbs (cur.open_ - fib) < h.SYMBOL_POINT symbol * 50)) = true :=
        fun hbe' => hex ⟨by rw [hb], by rw [hbe']⟩
      simp [hne]
    · simp [hbe]
    · simp [hbe]

/-- C17 on `demoHost`: the window is a bullish order block and nothing else. -/
theorem DetectOB_exclusive_witness :
    ∃! ob, DetectOB demoHost {} "EURUSD" = Except.ok ob :=
  (DetectOB_exclusive demoHost {} "EURUSD" demoNewest
    { open_ := 109 / 100, high := 110 / 100, low := 1085 / 1000, close := 1095 / 1000,
      volume := 100 } [] (10991 / 10000) (by decide!) (by decide!)).1

/-- No position of the empty array can be read. -/
theorem index_nil (i : Int) : index [] i = Except.error Fault.arrayOutOfRange := by
  unfold index
  split
  · rfl
  · simp

/-- Position 1 of a one-bar array cannot be read, position 0 can. -/
theorem index_single (r : MqlRates) :
    index [r] 0 = Except.ok r ∧ index [r] 1 = Except.error Fault.arrayOutOfRange := by
  constructor <;> simp [index]

/-- On a window of fewer than two bars `DetectOB` stops or returns `WRONG_VALUE`. -/
theorem DetectOB_classify_short (h : Host) (cfg : Inputs) (rates : List MqlRates)
    (priceGap : ℚ) (hlen : rates.length < 2) :
    DetectOB.classify h cfg rates priceGap = Except.error Fault.arrayOutOfRange ∨
    (rates ≠ [] ∧
      DetectOB.classify h cfg rates priceGap = Except.ok ENUM_OB_TYPE.WRONG_VALUE) := by
  cases rates with
  | nil =>
    left
    simp only [DetectOB.classify, CalculateFib, index_nil]
  | cons r tl =>
    have htl : tl = [] := by
      cases tl with
      | nil => rfl
      | cons a l =>
        simp only [List.length_cons] at hlen
        omega
    subst htl
    unfold DetectOB.classify
    cases hfib : CalculateFib h [r] cfg.FibLevel1 with
    | error f =>
      left
      have hf : f = Fault.arrayOutOfRange := by
        unfold CalculateFib at hfib
        cases hmax : index [r] (h.ArrayMaximum [r]) with
        | error g =>
          have hg : g = Fault.arrayOutOfRange := by
            unfold index at hmax
            split at hmax
            · exact (Except.error.inj hmax).symm
            · split at hmax
              · cases hmax
              · exact (Except.error.inj hmax).symm
          simp only [hmax] at hfib
          rw [← Except.error.inj hfib, hg]
        | ok rmax =>
          cases hmin : index [r] (h.ArrayMinimum [r]) with
          | error g =>
            have hg : g = Fault.arrayOutOfRange := by
              unfold index at hmin
              split at hmin
              · exact (Except.error.inj hmin).symm
              · split at hmin
                · cases hmin
                · exact (Except.error.inj hmin).symm
            simp only [hmax, hmin] at hfib
            rw [← Except.error.inj hfib, hg]
          | ok rmin => simp [hmax, hmin] at hfib
      rw [hf]
    | ok fib =>
      simp only [bobCondition, bearobCondition, (index_single r).1, (index_single r).2]
      by_cases hup : r.close > r.open_
      · left
        simp [hup]
      · by_cases hdn : r.close < r.open_
        · left
          simp [hup, hdn]
        · right
          simp [hup, hdn]

/-- C18 as stated fails: on the one-bar window of `dojiHost`, whose bar closes
where it opened, `DetectOB` does not fail but returns `WRONG_VALUE`, and the decision
cycle runs to its end; on the empty window of `emptyHost` it is stopped by an
array-out-of-range error, and the decision cycle with it. -/
theorem short_window_not_rejected :
    (dojiHost.CopyRates "EURUSD" ENUM_TIMEFRAMES.PERIOD_H1 0 50).length = 1 ∧
    DetectOB dojiHost {} "EURUSD" = Except.ok ENUM_OB_TYPE.WRONG_VALUE ∧
    (OnTick dojiHost {} Session.init).fault = none ∧
    DetectOB emptyHost {} "XAUUSD" = Except.error Fault.arrayOutOfRange ∧
    (OnTick emptyHost {} Session.init).fault = some Fault.arrayOutOfRange := by
  decide!

/-- C18, amended. On a window of fewer than two bars `DetectOB` never returns `BOB`
or `BEAROB`: on the empty window it is stopped by an array-out-of-range error, on a
one-bar window it is stopped the same way or returns `WRONG_VALUE`; either way the
cycle submits no order for the symbol. -/
theorem DetectOB_short_window (h : Host) (cfg : Inputs) (symbol : String) (o : Outcome)
    (hlen : (h.CopyRates symbol cfg.HighTF1 0 cfg.OB_Lookback).length < 2) :
    (DetectOB h cfg symbol = Except.error Fault.arrayOutOfRange ∨
      DetectOB h cfg symbol = Except.ok ENUM_OB_TYPE.WRONG_VALUE) ∧
    (h.CopyRates symbol cfg.HighTF1 0 cfg.OB_Lookback = [] →
      DetectOB h cfg symbol = Except.error Fault.arrayOutOfRange) ∧
    (OnTick.body h cfg symbol o).orders = o.orders := by
  have hcases := DetectOB_classify_short h cfg
    (h.CopyRates symbol cfg.HighTF1 0 cfg.OB_Lookback) (h.SYMBOL_POINT symbol * 50) hlen
  have hdef : DetectOB h cfg symbol = DetectOB.classify h cfg
      (h.CopyRates symbol cfg.HighTF1 0 cfg.OB_Lookback) (h.SYMBOL_POINT symbol * 50) := rfl
  refine ⟨?_, ?_, ?_⟩
  · rcases hcases with herr | ⟨_, hnone⟩
    · exact Or.inl (hdef ▸ herr)
    · exact Or.inr (hdef ▸ hnone)
  · intro hempty
    rcases hcases with herr | ⟨hne, _⟩
    · exact hdef ▸ herr
    · exact absurd hempty hne
  · unfold OnTick.body OnTick.path
    rcases hcases with herr | ⟨_, hnone⟩
    · rw [hdef, herr]
    · rw [hdef, hnone]
      simp

/-- C18, amended, on the one-bar window of `dojiHost`. -/
theorem DetectOB_short_window_witness :
    (DetectOB dojiHost {} "EURUSD" = Except.error Fault.arrayOutOfRange ∨
      DetectOB dojiHost {} "EURUSD" = Except.ok ENUM_OB_TYPE.WRONG_VALUE) ∧
    (OnTick.body dojiHost {} "EURUSD" demoStart).orders = demoStart.orders :=
  ⟨(DetectOB_short_window dojiHost {} "EURUSD" demoStart (by decide!)).1,
   (DetectOB_short_window dojiHost {} "EURUSD" demoStart (by decide!)).2.2⟩

/-! ## Two symbols in one decision cycle -/

/-- Orders with pairwise different symbols contain at most one order per symbol. -/
theorem filter_symbol_length (orders : List TradeRequest) (symbol : String)
    (hpair : orders.Pairwise (fun a b => a.symbol ≠ b.symbol)) :
    (orders.filter (fun r => decide (r.symbol = symbol))).length ≤ 1 := by
  induction orders with
  | nil => simp
  | cons a l ih =>
    obtain ⟨hhead, htail⟩ := List.pairwise_cons.mp hpair
    by_cases ha : a.symbol = symbol
    · have hnil : l.filter (fun r => decide (r.symbol = symbol)) = [] := by
        rw [List.filter_eq_nil_iff]
        intro b hb hbs
        have hbs' : b.symbol = symbol := by simpa using hbs
        exact hhead b hb (ha.trans hbs'.symm)
      simp [List.filter_cons, ha, hnil]
    · simp only [List.filter_cons, ha, decide_False, Bool.false_eq_true, if_false]
      exact ih htail

/-- C20. The cool-down is tested once per cycle: on `demoHost` a single `OnTick`
submits an order for each of the two symbols at the same time, both are accepted
and `tradeCountToday` grows by 2.  In every cycle each symbol gets at most one
order. -/
theorem OnTick_two_trades_one_cycle :
    ((trace {} [Event.tick demoHost] Session.init).map
        (fun i => (i.time, i.request.symbol, i.request.type, i.accepted)) =
      [(100000, "XAUUSD", ENUM_ORDER_TYPE.ORDER_TYPE_BUY, true),
       (100000, "EURUSD", ENUM_ORDER_TYPE.ORDER_TYPE_BUY, true)] ∧
     (OnTick demoHost {} Session.init).session.tradeCountToday =
        Session.init.tradeCountToday + 2) ∧
    (∀ (h : Host) (cfg : Inputs) (s : Session) (symbol : String),
      ((OnTick h cfg s).orders.filter (fun r => decide (r.symbol = symbol))).length ≤ 1) := by
  refine ⟨by decide!, fun h cfg s symbol => ?_⟩
  exact filter_symbol_length _ symbol (handle_symbols cfg (Event.tick h) s)

end SmartOB
